import Mathlib

/-!
# Verification of the replica fan-out layer (`ReplicasConnections`)

Shallow embedding of `dbms/src/Client/ReplicasConnections.cpp`: a coordinator
that multiplexes packet streams from several replica connections into one
ordered stream.  Connections are modelled as finite packet streams plus
instrumentation counters recording the calls the coordinator makes on them
(`sendCancel`, `disconnect`, `sendExternalTablesData`).  The socket-readiness
primitive (`Poco::Net::Socket::select`) is modelled by an explicit per-poll
readiness oracle (`List Bool`, one entry per replica in iteration order).
-/

namespace ReplicasConn

/-- The wire packet categories (`Protocol::Server::*`); every value outside the
closed set handled by the `switch` in the source falls into `unrecognized`. -/
inductive PacketType where
  | data
  | progress
  | profileInfo
  | totals
  | extremes
  | endOfStream
  | exception
  | unrecognized
  deriving DecidableEq, Repr

/-- `Connection::Packet`: a type tag plus an opaque payload identifier. -/
structure Packet where
  ptype : PacketType
  payload : Nat
  deriving DecidableEq, Repr

/-- Model of a `Connection`: the packets still to be received from it, its
server address, and instrumentation counting the calls issued on it. -/
structure Connection where
  stream : List Packet
  address : String
  cancel_count : Nat
  disconnect_count : Nat
  query_count : Nat
  external_data : List Nat
  deriving DecidableEq, Repr

/-- `ReplicasConnections::Replica`: per-connection mutable state. -/
structure Replica where
  conn : Connection
  is_valid : Bool
  can_read : Bool
  next_packet_number : Nat
  deriving DecidableEq, Repr

/-- `ReplicasConnections`: the coordinator state.  `replicas` is the
`replica_hash` in its (stable) iteration order. -/
structure ReplicasConnections where
  replicas : List Replica
  valid_replicas_count : Nat
  next_packet_number : Nat
  deriving DecidableEq, Repr

/-- Construction: one Replica per connection, all valid, counters at zero;
`valid_replicas_count` is the number of connections obtained. -/
def mkReplicasConnections (conns : List Connection) : ReplicasConnections :=
  { replicas := conns.map fun c =>
      { conn := c, is_valid := true, can_read := false, next_packet_number := 0 }
    valid_replicas_count := conns.length
    next_packet_number := 0 }

/-- Number of entries with `is_valid = true`. -/
def countValid (rc : ReplicasConnections) : Nat :=
  (rc.replicas.filter fun r => r.is_valid).length

/-- `waitForReadEvent`: fast path when `valid_replicas_count == 0`; otherwise
every replica's `can_read` is reset and then set exactly for the valid
replicas whose socket the poll reports ready.  Returns the number of ready
sockets (the `n` of `select`) and the updated state. -/
def waitForReadEvent (rc : ReplicasConnections) (poll : List Bool) :
    Nat × ReplicasConnections :=
  if rc.valid_replicas_count = 0 then (0, rc)
  else
    let rs := rc.replicas.mapIdx fun i r =>
      { r with can_read := r.is_valid && poll.getD i false }
    ((rs.filter fun r => r.can_read).length, { rc with replicas := rs })

/-- The selection scan of `pickConnection`: iterate over `(index, replica)`
pairs keeping the first replica with `can_read` whose `next_packet_number`
strictly exceeds the running maximum (initialised to `-1`). -/
def pickScanAux : List (Nat × Replica) → Int → Option Nat → Option Nat
  | [], _, res => res
  | p :: rest, maxN, res =>
    if p.2.can_read = true ∧ (p.2.next_packet_number : Int) > maxN then
      pickScanAux rest (p.2.next_packet_number : Int) (some p.1)
    else
      pickScanAux rest maxN res

/-- Result of `pickConnection`: either a picked replica index, or the
`NO_AVAILABLE_REPLICA` exception; both carry the state at that point. -/
inductive PickResult where
  | ok (idx : Nat) (rc : ReplicasConnections)
  | noReplica (rc : ReplicasConnections)
  deriving DecidableEq, Repr

/-- `pickConnection`: poll, then (if any socket was ready) scan for the
readable replica with the largest `next_packet_number`; throw
`NO_AVAILABLE_REPLICA` when no replica was selected. -/
def pickConnection (rc : ReplicasConnections) (poll : List Bool) : PickResult :=
  let n := (waitForReadEvent rc poll).1
  let rc1 := (waitForReadEvent rc poll).2
  let res : Option Nat :=
    if n > 0 then pickScanAux rc1.replicas.enum (-1) none else none
  match res with
  | none => .noReplica rc1
  | some i => .ok i rc1

/-- `sendCancel`: every currently-valid replica's connection receives a
cancel; invalid replicas are skipped. -/
def sendCancel (rc : ReplicasConnections) : ReplicasConnections :=
  { rc with replicas := rc.replicas.map fun r =>
      if r.is_valid then
        { r with conn := { r.conn with cancel_count := r.conn.cancel_count + 1 } }
      else r }

/-- `disconnect`: every currently-valid replica's connection is disconnected;
invalid replicas are skipped.  Validity is not changed. -/
def disconnect (rc : ReplicasConnections) : ReplicasConnections :=
  { rc with replicas := rc.replicas.map fun r =>
      if r.is_valid then
        { r with conn :=
            { r.conn with disconnect_count := r.conn.disconnect_count + 1 } }
      else r }

/-- The per-connection inner loop of `drainResidualPackets`: receive and
discard packets until a terminal (`EndOfStream`/`Exception`) or unrecognized
packet is consumed; returns the remaining stream, or `none` when the stream
is exhausted first (the real call would block forever). -/
def drainConn : List Packet → Option (List Packet)
  | [] => none
  | p :: rest =>
    match p.ptype with
    | .data => drainConn rest
    | .progress => drainConn rest
    | .profileInfo => drainConn rest
    | .totals => drainConn rest
    | .extremes => drainConn rest
    | .endOfStream => some rest
    | .exception => some rest
    | .unrecognized => some rest

/-- Drain one replica: only valid replicas are drained; validity and counters
are untouched. -/
def drainReplica (r : Replica) : Option Replica :=
  if r.is_valid then
    (drainConn r.conn.stream).map fun s => { r with conn := { r.conn with stream := s } }
  else some r

/-- `drainResidualPackets`: drain every still-valid replica; `none` when some
drained stream never reaches a terminal packet. -/
def drainResidual (rc : ReplicasConnections) : Option ReplicasConnections :=
  (rc.replicas.mapM drainReplica).map fun rs => { rc with replicas := rs }

/-- Replace the replica at index `i`. -/
def setReplica (rc : ReplicasConnections) (i : Nat) (r : Replica) :
    ReplicasConnections :=
  { rc with replicas := rc.replicas.set i r }

/-- One receive+classify iteration of the inner loop of `receivePacket`.
The packet `pkt` has just been received from replica `i` (whose remaining
stream is `rest`); the `switch` updates validity, the valid-count, and — on a
terminal packet — broadcasts cancel and runs the residual drain.  Returns the
state and retry flag after the `switch`, `none` when the drain blocks. -/
def classifyStep (rc : ReplicasConnections) (i : Nat) (r : Replica) (pkt : Packet)
    (rest : List Packet) (retry : Bool) : Option (ReplicasConnections × Bool) :=
  let r1 : Replica := { r with conn := { r.conn with stream := rest } }
  match pkt.ptype with
  | .data | .progress | .profileInfo | .totals | .extremes =>
      some (setReplica rc i r1, retry)
  | .endOfStream | .exception =>
      let r2 := { r1 with is_valid := false }
      let rc2 := { setReplica rc i r2 with
                   valid_replicas_count := rc.valid_replicas_count - 1 }
      (drainResidual (sendCancel rc2)).map fun rc3 => (rc3, retry)
  | .unrecognized =>
      let r2 := { r1 with is_valid := false }
      let rc2 := { setReplica rc i r2 with
                   valid_replicas_count := rc.valid_replicas_count - 1 }
      some (rc2, if rc2.valid_replicas_count > 0 then true else retry)

/-- Result of the inner `while (replica.is_valid)` loop: a packet returned to
the caller, an exit because the replica became invalid, or a blocked/diverging
execution (out of fuel, empty stream, or blocking drain). -/
inductive InnerResult where
  | ret (pkt : Packet) (rc : ReplicasConnections)
  | exitInvalid (rc : ReplicasConnections)
  | stuck
  deriving DecidableEq, Repr

/-- The inner loop of `receivePacket` on replica `i`: while the replica is
valid, receive a packet, classify it, and either return it (when the replica's
`next_packet_number` equals the coordinator's and no retry is pending,
incrementing both counters) or discard it (incrementing only the replica's
counter and clearing the retry flag). -/
def innerLoop : Nat → ReplicasConnections → Nat → Bool → InnerResult
  | 0, _, _, _ => .stuck
  | fuel + 1, rc, i, retry =>
    match rc.replicas.get? i with
    | none => .stuck
    | some r =>
      if r.is_valid = true then
        match r.conn.stream with
        | [] => .stuck
        | pkt :: rest =>
          match classifyStep rc i r pkt rest retry with
          | none => .stuck
          | some (rc2, retry2) =>
            match rc2.replicas.get? i with
            | none => .stuck
            | some r2 =>
              if r2.next_packet_number = rc2.next_packet_number ∧ retry2 = false then
                .ret pkt
                  { setReplica rc2 i
                      { r2 with next_packet_number := r2.next_packet_number + 1 } with
                    next_packet_number := rc2.next_packet_number + 1 }
              else
                innerLoop fuel
                  (setReplica rc2 i
                    { r2 with next_packet_number := r2.next_packet_number + 1 }) i false
      else .exitInvalid rc

/-- Result of `receivePacket`: a packet plus the state and the unconsumed
polls, the `NO_AVAILABLE_REPLICA` exception, or a blocked/diverging
execution. -/
inductive RecvResult where
  | ok (pkt : Packet) (rc : ReplicasConnections) (polls : List (List Bool))
  | noReplica (rc : ReplicasConnections) (polls : List (List Bool))
  | stuck
  deriving DecidableEq, Repr

/-- `receivePacket`: the outer `while (true)` loop — pick a replica (one poll
consumed per pick), run the inner loop on it, and re-pick when the replica
became invalid without returning a packet. -/
def receivePacket : Nat → ReplicasConnections → List (List Bool) → RecvResult
  | 0, _, _ => .stuck
  | fuel + 1, rc, polls =>
    match pickConnection rc (polls.headD []) with
    | .noReplica rc1 => .noReplica rc1 polls.tail
    | .ok i rc1 =>
      match innerLoop (fuel + 1) rc1 i false with
      | .ret pkt rc2 => .ok pkt rc2 polls.tail
      | .exitInvalid rc2 => receivePacket fuel rc2 polls.tail
      | .stuck => .stuck

/-- `sendQuery`: the query is sent to every replica in the set regardless of
validity. -/
def sendQuery (rc : ReplicasConnections) : ReplicasConnections :=
  { rc with replicas := rc.replicas.map fun r =>
      { r with conn := { r.conn with query_count := r.conn.query_count + 1 } } }

/-- Result of `sendExternalTablesData`. -/
inductive SendResult where
  | ok (rc : ReplicasConnections)
  | mismatch (rc : ReplicasConnections)
  deriving DecidableEq, Repr

/-- `sendExternalTablesData`: throws `MISMATCH_REPLICAS_DATA_SOURCES` when the
payload count differs from the replica count (before sending anything);
otherwise pairs payloads with replicas in iteration order. -/
def sendExternalTablesData (rc : ReplicasConnections) (data : List Nat) :
    SendResult :=
  if data.length ≠ rc.replicas.length then .mismatch rc
  else .ok { rc with replicas := (rc.replicas.zip data).map fun p =>
      { p.1 with conn :=
          { p.1.conn with external_data := p.1.conn.external_data ++ [p.2] } } }

/-- The loop of `dumpAddresses`: for each valid replica the streamed text is
the per-iteration-fresh separator character `'\0'` followed by the server
address (the `';'` update to the separator is dead, being re-initialised on
every iteration). -/
def dumpLoop : List Replica → String
  | [] => ""
  | r :: rest =>
    (if r.is_valid then String.singleton (Char.ofNat 0) ++ r.conn.address else "")
      ++ dumpLoop rest

/-- `dumpAddresses`: empty when `valid_replicas_count == 0`, else the loop
output. -/
def dumpAddresses (rc : ReplicasConnections) : String :=
  if rc.valid_replicas_count = 0 then "" else dumpLoop rc.replicas

/-- `n` consecutive `receivePacket` calls, threading state and polls; returns
the final state and the number of calls that returned a packet.  A blocked
call stops the run. -/
def runCalls (fuel : Nat) : Nat → ReplicasConnections → List (List Bool) →
    ReplicasConnections × Nat
  | 0, rc, _ => (rc, 0)
  | n + 1, rc, polls =>
    match receivePacket fuel rc polls with
    | .ok _ rc1 polls1 => let q := runCalls fuel n rc1 polls1; (q.1, q.2 + 1)
    | .noReplica rc1 polls1 => runCalls fuel n rc1 polls1
    | .stuck => (rc, 0)

/-! ## Witness states used by the concrete instantiations below. -/

/-- A fresh connection with the given address and pending stream. -/
def freshConn (addr : String) (s : List Packet) : Connection :=
  { stream := s, address := addr, cancel_count := 0, disconnect_count := 0,
    query_count := 0, external_data := [] }

/-- A coordinator with a single valid replica and no pending packets. -/
def rcOneValid : ReplicasConnections := mkReplicasConnections [freshConn "replica0" []]

/-- A coordinator whose only replica has already been invalidated. -/
def rcZeroValid : ReplicasConnections :=
  { replicas := [{ conn := freshConn "replica0" [], is_valid := false,
                   can_read := false, next_packet_number := 3 }]
    valid_replicas_count := 0
    next_packet_number := 3 }

/-! ## C7: nothing can ever be produced once `valid_replicas_count` is zero -/

/-- C7: when `valid_replicas_count` is 0, `waitForReadEvent` returns 0 with the
state untouched (no blocking poll happens), `pickConnection` throws
`NO_AVAILABLE_REPLICA`, and every `receivePacket` attempt (any fuel, any
polls) throws `NO_AVAILABLE_REPLICA` with the state unchanged — so once the
count reaches 0 no further packet can ever be produced. -/
theorem zero_valid_no_packets (rc : ReplicasConnections)
    (h : rc.valid_replicas_count = 0) :
    (∀ poll, waitForReadEvent rc poll = (0, rc)) ∧
    (∀ poll, pickConnection rc poll = .noReplica rc) ∧
    (∀ fuel polls, receivePacket (fuel + 1) rc polls = .noReplica rc polls.tail) := by
  refine ⟨fun poll => by simp [waitForReadEvent, h],
          fun poll => by simp [pickConnection, waitForReadEvent, h],
          fun fuel polls => by simp [receivePacket, pickConnection, waitForReadEvent, h]⟩

/-- Closed instantiation of `zero_valid_no_packets` on a concrete dead
coordinator. -/
theorem zero_valid_no_packets_witness :
    (waitForReadEvent rcZeroValid [true] = (0, rcZeroValid)) ∧
    (pickConnection rcZeroValid [true] = .noReplica rcZeroValid) ∧
    (receivePacket (4 + 1) rcZeroValid [[true], [true]] =
      .noReplica rcZeroValid [[true]]) :=
  ⟨(zero_valid_no_packets rcZeroValid rfl).1 [true],
   (zero_valid_no_packets rcZeroValid rfl).2.1 [true],
   (zero_valid_no_packets rcZeroValid rfl).2.2 4 [[true], [true]]⟩

/-! ## C8: external table data distribution -/

/-- C8: `sendExternalTablesData` throws `MISMATCH_REPLICAS_DATA_SOURCES` and
sends nothing whenever the payload count differs from the total replica count
(valid or not); when the counts match it sends the `i`-th payload to the
`i`-th replica's connection, in iteration order, touching nothing else. -/
theorem sendExternalTablesData_spec (rc : ReplicasConnections) (data : List Nat) :
    (data.length ≠ rc.replicas.length →
      sendExternalTablesData rc data = .mismatch rc) ∧
    (data.length = rc.replicas.length →
      ∃ rc', sendExternalTablesData rc data = .ok rc' ∧
        rc'.valid_replicas_count = rc.valid_replicas_count ∧
        rc'.next_packet_number = rc.next_packet_number ∧
        rc'.replicas.length = rc.replicas.length ∧
        ∀ i r d, rc.replicas.get? i = some r → data.get? i = some d →
          rc'.replicas.get? i = some
            { r with conn :=
                { r.conn with external_data := r.conn.external_data ++ [d] } }) := by
  constructor
  · intro h
    simp [sendExternalTablesData, h]
  · intro h
    refine ⟨{ rc with replicas := (rc.replicas.zip data).map fun p =>
        { p.1 with conn :=
            { p.1.conn with external_data := p.1.conn.external_data ++ [p.2] } } },
      by rw [sendExternalTablesData, if_neg (by simp [h])], rfl, rfl, ?_, ?_⟩
    · simp [List.length_zip, h]
    · intro i r d hr hd
      have hz : (rc.replicas.zip data).get? i = some (r, d) :=
        (List.get?_zip_eq_some _ _ _ _).2 ⟨hr, hd⟩
      show ((rc.replicas.zip data).map _).get? i = _
      rw [List.get?_map, hz]
      rfl

/-- Closed instantiation of `sendExternalTablesData_spec`: the mismatch case
on a 1-replica coordinator with 2 payloads, and the matching case delivering
payload 7 to replica 0. -/
theorem sendExternalTablesData_spec_witness :
    sendExternalTablesData rcOneValid [7, 8] = .mismatch rcOneValid ∧
    (∃ rc', sendExternalTablesData rcOneValid [7] = .ok rc' ∧
      rc'.valid_replicas_count = rcOneValid.valid_replicas_count ∧
      rc'.next_packet_number = rcOneValid.next_packet_number ∧
      rc'.replicas.length = rcOneValid.replicas.length ∧
      ∀ i r d, rcOneValid.replicas.get? i = some r → [7].get? i = some d →
        rc'.replicas.get? i = some
          { r with conn :=
              { r.conn with external_data := r.conn.external_data ++ [d] } }) :=
  ⟨(sendExternalTablesData_spec rcOneValid [7, 8]).1 (by decide),
   (sendExternalTablesData_spec rcOneValid [7]).2 rfl⟩

/-! ## C5: `disconnect` is not idempotent at the coordinator level -/

/-- C5 counterexample: on a coordinator with one valid replica, the second
`disconnect()` call is not a no-op — the replica is still valid after the
first call (so it is not skipped), and its connection has received two
disconnect calls, contradicting the claim that every replica touched by the
second call is already invalid or already disconnected and is skipped. -/
theorem disconnect_twice_counterexample :
    disconnect (disconnect rcOneValid) ≠ disconnect rcOneValid ∧
    ((disconnect rcOneValid).replicas.map fun r => r.is_valid) = [true] ∧
    ((disconnect (disconnect rcOneValid)).replicas.map
      fun r => r.conn.disconnect_count) = [2] := by
  exact ⟨by decide, by decide, by decide⟩

/-- C5 amended: `disconnect()` skips exactly the invalid replicas and leaves
validity (and both counters) unchanged, so each call issues one more
connection-level disconnect to every still-valid replica; a second call
therefore re-disconnects every still-valid replica, and only replicas already
invalid are never touched. -/
theorem disconnect_valid_only (rc : ReplicasConnections) :
    (disconnect rc).valid_replicas_count = rc.valid_replicas_count ∧
    (disconnect rc).next_packet_number = rc.next_packet_number ∧
    (disconnect rc).replicas.length = rc.replicas.length ∧
    (∀ i r, rc.replicas.get? i = some r →
      (disconnect rc).replicas.get? i = some
        (if r.is_valid then
          { r with conn :=
              { r.conn with disconnect_count := r.conn.disconnect_count + 1 } }
         else r)) := by
  refine ⟨rfl, rfl, by simp [disconnect], ?_⟩
  intro i r hr
  show (rc.replicas.map _).get? i = _
  rw [List.get?_map, hr]
  rfl

/-! ## C2: the selection rule of `pickConnection` -/

/-- Once the scan holds a candidate it never returns `none`. -/
theorem pickScanAux_isSome :
    ∀ (pairs : List (Nat × Replica)) (m : Int) (res : Option Nat),
      res.isSome = true → (pickScanAux pairs m res).isSome = true := by
  intro pairs
  induction pairs with
  | nil => intro m res h; exact h
  | cons p rest ih =>
    intro m res h
    unfold pickScanAux
    by_cases hc : p.2.can_read = true ∧ (p.2.next_packet_number : Int) > m
    · rw [if_pos hc]; exact ih _ _ rfl
    · rw [if_neg hc]; exact ih _ _ h

/-- With the initial maximum `-1`, any readable pair forces a selection. -/
theorem pickScanAux_some_of_can_read :
    ∀ (pairs : List (Nat × Replica)) (res : Option Nat),
      (∃ p ∈ pairs, p.2.can_read = true) →
      (pickScanAux pairs (-1) res).isSome = true := by
  intro pairs
  induction pairs with
  | nil => rintro res ⟨p, hp, -⟩; exact absurd hp (List.not_mem_nil p)
  | cons q rest ih =>
    rintro res ⟨p, hp, hcr⟩
    unfold pickScanAux
    by_cases hc : q.2.can_read = true ∧ (q.2.next_packet_number : Int) > -1
    · rw [if_pos hc]; exact pickScanAux_isSome _ _ _ rfl
    · rw [if_neg hc]
      rcases List.mem_cons.1 hp with rfl | hp2
      · exact absurd ⟨hcr, lt_of_lt_of_le (by norm_num) (Int.ofNat_nonneg p.2.next_packet_number)⟩ hc
      · exact ih res ⟨p, hp2, hcr⟩

/-- Soundness of the selection scan: a selected index names a readable
replica whose `next_packet_number` is at least the running maximum and at
least that of every readable replica still to be scanned. -/
theorem pickScanAux_sound (rs : List Replica) :
    ∀ (pairs : List (Nat × Replica)) (m : Int) (res : Option Nat) (i : Nat),
      (∀ p ∈ pairs, rs.get? p.1 = some p.2) →
      (∀ k, res = some k → ∃ r, rs.get? k = some r ∧ r.can_read = true ∧
        (r.next_packet_number : Int) = m) →
      pickScanAux pairs m res = some i →
      ∃ r, rs.get? i = some r ∧ r.can_read = true ∧
        m ≤ (r.next_packet_number : Int) ∧
        ∀ p ∈ pairs, p.2.can_read = true →
          p.2.next_packet_number ≤ r.next_packet_number := by
  intro pairs
  induction pairs with
  | nil =>
    intro m res i _ hres hrun
    rcases hres i hrun with ⟨r, hr, hcr, hm⟩
    exact ⟨r, hr, hcr, le_of_eq hm.symm, by simp⟩
  | cons p rest ih =>
    intro m res i hpairs hres hrun
    unfold pickScanAux at hrun
    by_cases hc : p.2.can_read = true ∧ (p.2.next_packet_number : Int) > m
    · rw [if_pos hc] at hrun
      rcases ih (p.2.next_packet_number : Int) (some p.1) i
        (fun q hq => hpairs q (List.mem_cons_of_mem _ hq))
        (fun k hk => by
          cases hk
          exact ⟨p.2, hpairs p (List.mem_cons_self _ _), hc.1, rfl⟩) hrun with
        ⟨r, hr, hcr, hle, hdom⟩
      refine ⟨r, hr, hcr, le_trans (le_of_lt hc.2) hle, ?_⟩
      intro q hq hqcr
      rcases List.mem_cons.1 hq with rfl | hq2
      · exact Int.ofNat_le.1 hle
      · exact hdom q hq2 hqcr
    · rw [if_neg hc] at hrun
      rcases ih m res i
        (fun q hq => hpairs q (List.mem_cons_of_mem _ hq)) hres hrun with
        ⟨r, hr, hcr, hle, hdom⟩
      refine ⟨r, hr, hcr, hle, ?_⟩
      intro q hq hqcr
      rcases List.mem_cons.1 hq with rfl | hq2
      · have : ¬ (q.2.next_packet_number : Int) > m := fun hgt => hc ⟨hqcr, hgt⟩
        exact Int.ofNat_le.1 (le_trans (not_lt.1 this) hle)
      · exact hdom q hq2 hqcr

/-- In the state produced by a non-trivial poll, `can_read` implies
`is_valid`: the read-watch set contained only valid replicas. -/
theorem waitForReadEvent_can_read_valid (rc : ReplicasConnections)
    (poll : List Bool) (h : ¬ rc.valid_replicas_count = 0) :
    ∀ j s, (waitForReadEvent rc poll).2.replicas.get? j = some s →
      s.can_read = true → s.is_valid = true := by
  intro j s hs hcr
  simp only [waitForReadEvent, if_neg h] at hs
  rw [List.get?_eq_getElem?, List.getElem?_mapIdx] at hs
  cases hrc : rc.replicas[j]? with
  | none => rw [hrc] at hs; exact absurd hs (by simp)
  | some r =>
    rw [hrc] at hs
    cases hs
    have := hcr
    simp only [Bool.and_eq_true] at this
    exact this.1

/-- The count returned by a non-trivial poll is the number of replicas whose
`can_read` flag it set. -/
theorem waitForReadEvent_count (rc : ReplicasConnections)
    (poll : List Bool) (h : ¬ rc.valid_replicas_count = 0) :
    (waitForReadEvent rc poll).1 =
      ((waitForReadEvent rc poll).2.replicas.filter fun r => r.can_read).length := by
  simp [waitForReadEvent, if_neg h]

/-- State preservation by the poll: each replica keeps its validity, counter
and connection; only `can_read` is recomputed. -/
theorem waitForReadEvent_preserves (rc : ReplicasConnections) (poll : List Bool)
    (j : Nat) (s : Replica) (hs : rc.replicas.get? j = some s) :
    ∃ s2, (waitForReadEvent rc poll).2.replicas.get? j = some s2 ∧
      s2.is_valid = s.is_valid ∧ s2.next_packet_number = s.next_packet_number ∧
      s2.conn = s.conn := by
  by_cases h0 : rc.valid_replicas_count = 0
  · exact ⟨s, by
      rw [show (waitForReadEvent rc poll).2 = rc from by simp [waitForReadEvent, h0]]
      exact hs, rfl, rfl, rfl⟩
  · refine ⟨{ s with can_read := s.is_valid && poll.getD j false }, ?_, rfl, rfl, rfl⟩
    simp only [waitForReadEvent, if_neg h0]
    rw [List.get?_eq_getElem?, List.getElem?_mapIdx, ← List.get?_eq_getElem?, hs]
    rfl

/-- A successful `pickConnection` picks, in the post-poll state, a replica
that is readable and valid, with maximal `next_packet_number` among the
readable ones. -/
theorem pickConnection_ok_picked (rc : ReplicasConnections) (poll : List Bool)
    (i : Nat) (rc1 : ReplicasConnections)
    (hok : pickConnection rc poll = .ok i rc1) :
    rc1 = (waitForReadEvent rc poll).2 ∧
    ∃ r, rc1.replicas.get? i = some r ∧ r.can_read = true ∧ r.is_valid = true ∧
      ∀ j s, rc1.replicas.get? j = some s → s.can_read = true →
        s.next_packet_number ≤ r.next_packet_number := by
  by_cases h0 : rc.valid_replicas_count = 0
  · have hno : pickConnection rc poll = .noReplica rc := by
      simp [pickConnection, waitForReadEvent, h0]
    rw [hno] at hok; cases hok
  · simp only [pickConnection] at hok
    by_cases hn : (waitForReadEvent rc poll).1 > 0
    · rw [if_pos hn] at hok
      cases hscan : pickScanAux (waitForReadEvent rc poll).2.replicas.enum (-1) none with
      | none => rw [hscan] at hok; cases hok
      | some i2 =>
        rw [hscan] at hok
        cases hok
        rcases pickScanAux_sound (waitForReadEvent rc poll).2.replicas
          (waitForReadEvent rc poll).2.replicas.enum (-1) none i
          (fun p hp => List.mem_enum_iff_get?.1 hp) (by simp) hscan with
          ⟨r, hr, hcr, -, hdom⟩
        refine ⟨rfl, r, hr, hcr,
          waitForReadEvent_can_read_valid rc poll h0 _ _ hr hcr, ?_⟩
        intro j s hs hscr
        exact hdom (j, s) (List.mem_enum_iff_get?.2 hs) hscr
    · rw [if_neg hn] at hok; cases hok

/-- `pickConnection` never picks a replica that is already invalid in the
pre-poll state. -/
theorem pickConnection_ok_ne_invalid (rc : ReplicasConnections) (poll : List Bool)
    (i j : Nat) (rc1 : ReplicasConnections) (s : Replica)
    (hs : rc.replicas.get? i = some s) (hsv : s.is_valid = false)
    (hok : pickConnection rc poll = .ok j rc1) : j ≠ i := by
  rcases pickConnection_ok_picked rc poll j rc1 hok with ⟨h1, r, hr, -, hval, -⟩
  intro hji
  subst hji
  subst h1
  rcases waitForReadEvent_preserves rc poll j s hs with ⟨s2, hs2, hval2, -, -⟩
  rw [hr] at hs2
  cases hs2
  rw [hval, hsv] at hval2
  cases hval2

/-- C2: a successful `pickConnection` returns a replica that is readable,
valid, and of maximal `next_packet_number` among the readable-and-valid
replicas of the post-poll state; and it throws `NO_AVAILABLE_REPLICA` exactly
when, after polling, no replica is both readable and valid (given the count
invariant, which stands in for the validity re-check). -/
theorem pickConnection_spec (rc : ReplicasConnections) (poll : List Bool)
    (hinv : rc.valid_replicas_count = countValid rc) :
    (∀ i rc1, pickConnection rc poll = .ok i rc1 →
      ∃ r, rc1.replicas.get? i = some r ∧ r.can_read = true ∧ r.is_valid = true ∧
        ∀ j s, rc1.replicas.get? j = some s → s.can_read = true →
          s.is_valid = true → s.next_packet_number ≤ r.next_packet_number) ∧
    (∀ rc1, pickConnection rc poll = .noReplica rc1 →
      ∀ s ∈ rc1.replicas, ¬(s.can_read = true ∧ s.is_valid = true)) ∧
    ((∀ s ∈ (waitForReadEvent rc poll).2.replicas,
        ¬(s.can_read = true ∧ s.is_valid = true)) →
      pickConnection rc poll = .noReplica (waitForReadEvent rc poll).2) := by
  have hpickok : ∀ i rc1, pickConnection rc poll = PickResult.ok i rc1 →
      ∃ r, rc1.replicas.get? i = some r ∧ r.can_read = true ∧ r.is_valid = true ∧
        ∀ j s, rc1.replicas.get? j = some s → s.can_read = true →
          s.is_valid = true → s.next_packet_number ≤ r.next_packet_number := by
    intro i rc1 hok
    rcases pickConnection_ok_picked rc poll i rc1 hok with ⟨-, r, hr, hcr, hval, hdom⟩
    exact ⟨r, hr, hcr, hval, fun j s hs hscr _ => hdom j s hs hscr⟩
  by_cases h0 : rc.valid_replicas_count = 0
  · have hfast : waitForReadEvent rc poll = (0, rc) := by
      simp [waitForReadEvent, h0]
    have hpick : pickConnection rc poll = .noReplica rc := by
      simp [pickConnection, hfast]
    have hnovalid : ∀ s ∈ rc.replicas, ¬(s.can_read = true ∧ s.is_valid = true) := by
      intro s hs hcontra
      have : (rc.replicas.filter fun r => r.is_valid) = [] :=
        List.length_eq_zero.1 (by rw [← countValid]; cc)
      exact (List.filter_eq_nil.1 this) s hs hcontra.2
    refine ⟨hpickok, ?_, ?_⟩
    · intro rc1 hno; rw [hpick] at hno; cases hno; exact hnovalid
    · intro _; rw [hfast]; exact hpick
  · have hcrv := waitForReadEvent_can_read_valid rc poll h0
    have hcnt := waitForReadEvent_count rc poll h0
    refine ⟨hpickok, ?_, ?_⟩
    · intro rc1 hno
      simp only [pickConnection] at hno
      by_cases hn : (waitForReadEvent rc poll).1 > 0
      · rw [if_pos hn] at hno
        have hex : ∃ s ∈ (waitForReadEvent rc poll).2.replicas, s.can_read = true := by
          rw [hcnt] at hn
          rcases List.exists_mem_of_ne_nil _ (List.length_pos_iff_ne_nil.1 hn) with ⟨s, hs⟩
          have := List.mem_filter.1 hs
          exact ⟨s, this.1, this.2⟩
        have hexe : ∃ p ∈ (waitForReadEvent rc poll).2.replicas.enum,
            p.2.can_read = true := by
          rcases hex with ⟨s, hs, hscr⟩
          rcases List.mem_iff_get?.1 hs with ⟨j, hj⟩
          exact ⟨(j, s), List.mem_enum_iff_get?.2 hj, hscr⟩
        have := pickScanAux_some_of_can_read _ none hexe
        cases hscan : pickScanAux (waitForReadEvent rc poll).2.replicas.enum (-1) none with
        | none => rw [hscan] at this; cases this
        | some i2 => rw [hscan] at hno; cases hno
      · rw [if_neg hn] at hno
        cases hno
        intro s hs hcontra
        have hncr : ∀ s2 ∈ (waitForReadEvent rc poll).2.replicas,
            ¬ s2.can_read = true := by
          rw [hcnt] at hn
          have : ((waitForReadEvent rc poll).2.replicas.filter
              fun r => r.can_read) = [] := by
            rcases Nat.eq_zero_or_pos ((waitForReadEvent rc poll).2.replicas.filter
              fun r => r.can_read).length with hz | hp
            · exact List.length_eq_zero.1 hz
            · exact absurd hp hn
          exact List.filter_eq_nil.1 this
        exact hncr s hs hcontra.1
    · intro hall
      simp only [pickConnection]
      have hn : ¬ (waitForReadEvent rc poll).1 > 0 := by
        rw [hcnt]
        intro hp
        rcases List.exists_mem_of_ne_nil _ (List.length_pos_iff_ne_nil.1 hp) with ⟨s, hs⟩
        have hsf := List.mem_filter.1 hs
        exact hall s hsf.1 ⟨hsf.2, hcrv _ _ (List.mem_iff_get?.1 hsf.1).choose_spec hsf.2⟩
      rw [if_neg hn]

/-- Two valid replicas at sequence numbers 3 and 5, neither polled yet. -/
def rcTwoAhead : ReplicasConnections :=
  { replicas := [
      { conn := freshConn "a0" [], is_valid := true, can_read := false,
        next_packet_number := 3 },
      { conn := freshConn "a1" [], is_valid := true, can_read := false,
        next_packet_number := 5 }]
    valid_replicas_count := 2, next_packet_number := 0 }

/-- The two-replica coordinator after a poll that reported both ready. -/
def rcTwoAheadPolled : ReplicasConnections :=
  { replicas := [
      { conn := freshConn "a0" [], is_valid := true, can_read := true,
        next_packet_number := 3 },
      { conn := freshConn "a1" [], is_valid := true, can_read := true,
        next_packet_number := 5 }]
    valid_replicas_count := 2, next_packet_number := 0 }

/-- Closed instantiation of `pickConnection_spec`: with replicas at sequence
numbers 3 and 5 both ready, the replica picked (index 1, the one at 5) is
readable, valid and maximal. -/
theorem pickConnection_spec_witness :
    ∃ r, rcTwoAheadPolled.replicas.get? 1 = some r ∧ r.can_read = true ∧
      r.is_valid = true ∧
      ∀ j s, rcTwoAheadPolled.replicas.get? j = some s → s.can_read = true →
        s.is_valid = true → s.next_packet_number ≤ r.next_packet_number :=
  (pickConnection_spec rcTwoAhead [true, true] (by decide)).1 1 rcTwoAheadPolled
    (by decide)

/-! ## The classification branches of `receivePacket` (C3, C4) -/

/-- The terminal branch of the `switch`: invalidate, decrement, cancel,
drain. -/
theorem classifyStep_terminal (rc : ReplicasConnections) (i : Nat) (r : Replica)
    (pkt : Packet) (rest : List Packet) (retry : Bool)
    (h : pkt.ptype = PacketType.endOfStream ∨ pkt.ptype = PacketType.exception) :
    classifyStep rc i r pkt rest retry =
      (drainResidual (sendCancel
        { setReplica rc i
            { r with conn := { r.conn with stream := rest }, is_valid := false } with
          valid_replicas_count := rc.valid_replicas_count - 1 })).map
        fun rc3 => (rc3, retry) := by
  rcases h with h | h <;> simp only [classifyStep, h]

/-- The default branch of the `switch`: invalidate, decrement, retry iff
other valid replicas remain. -/
theorem classifyStep_unrecognized (rc : ReplicasConnections) (i : Nat)
    (r : Replica) (pkt : Packet) (rest : List Packet) (retry : Bool)
    (h : pkt.ptype = PacketType.unrecognized) :
    classifyStep rc i r pkt rest retry =
      some ({ setReplica rc i
                { r with conn := { r.conn with stream := rest }, is_valid := false } with
              valid_replicas_count := rc.valid_replicas_count - 1 },
            if rc.valid_replicas_count - 1 > 0 then true else retry) := by
  simp only [classifyStep, h]

/-- The streamable branch of the `switch`: only the stream advances. -/
theorem classifyStep_streamable (rc : ReplicasConnections) (i : Nat)
    (r : Replica) (pkt : Packet) (rest : List Packet) (retry : Bool)
    (h : pkt.ptype = PacketType.data ∨ pkt.ptype = PacketType.progress ∨
      pkt.ptype = PacketType.profileInfo ∨ pkt.ptype = PacketType.totals ∨
      pkt.ptype = PacketType.extremes) :
    classifyStep rc i r pkt rest retry =
      some (setReplica rc i { r with conn := { r.conn with stream := rest } },
            retry) := by
  rcases h with h | h | h | h | h <;> simp only [classifyStep, h]

/-- Pointwise reading of a successful `Option`-valued `mapM`. -/
theorem mapM_option_get? {α β : Type} (f : α → Option β) :
    ∀ (l : List α) (l2 : List β), l.mapM f = some l2 →
      l2.length = l.length ∧
      ∀ j a, l.get? j = some a → ∃ b, f a = some b ∧ l2.get? j = some b := by
  intro l
  induction l with
  | nil =>
    intro l2 h
    rw [List.mapM_nil] at h
    cases h
    exact ⟨rfl, fun j a ha => by cases ha⟩
  | cons a rest ih =>
    intro l2 h
    rw [List.mapM_cons] at h
    cases hfa : f a with
    | none => rw [hfa] at h; simp at h
    | some b =>
      cases hrest : rest.mapM f with
      | none => rw [hfa, hrest] at h; simp at h
      | some bs =>
        rw [hfa, hrest] at h
        simp at h
        subst h
        rcases ih bs hrest with ⟨hlen, hget⟩
        refine ⟨by simp [hlen], ?_⟩
        intro j x hx
        cases j with
        | zero =>
          cases hx
          exact ⟨b, hfa, rfl⟩
        | succ j2 => exact hget j2 x hx

/-- Pointwise reading of a successful residual drain: every replica is
replaced by its `drainReplica` image; counters are untouched. -/
theorem drainResidual_get? (rc rc3 : ReplicasConnections)
    (h : drainResidual rc = some rc3) :
    rc3.valid_replicas_count = rc.valid_replicas_count ∧
    rc3.next_packet_number = rc.next_packet_number ∧
    rc3.replicas.length = rc.replicas.length ∧
    ∀ j s, rc.replicas.get? j = some s →
      ∃ s2, drainReplica s = some s2 ∧ rc3.replicas.get? j = some s2 := by
  unfold drainResidual at h
  cases hm : rc.replicas.mapM drainReplica with
  | none => rw [hm] at h; cases h
  | some rs2 =>
    rw [hm] at h
    rw [Option.map_some'] at h
    cases h
    rcases mapM_option_get? drainReplica rc.replicas rs2 hm with ⟨hlen, hget⟩
    exact ⟨rfl, rfl, hlen, fun j s hs => hget j s hs⟩

/-- Pointwise reading of `sendCancel`. -/
theorem sendCancel_get? (rc : ReplicasConnections) (j : Nat) (s : Replica)
    (hs : rc.replicas.get? j = some s) :
    (sendCancel rc).replicas.get? j = some
      (if s.is_valid then
        { s with conn := { s.conn with cancel_count := s.conn.cancel_count + 1 } }
       else s) := by
  show (rc.replicas.map _).get? j = _
  rw [List.get?_map, hs]
  rfl

/-- `sendCancel` on a valid replica increments its cancel counter. -/
theorem sendCancel_get?_valid (rc : ReplicasConnections) (j : Nat) (s : Replica)
    (hs : rc.replicas.get? j = some s) (hv : s.is_valid = true) :
    (sendCancel rc).replicas.get? j = some
      { s with conn := { s.conn with cancel_count := s.conn.cancel_count + 1 } } := by
  rw [sendCancel_get? rc j s hs, if_pos hv]

/-- `sendCancel` skips an invalid replica. -/
theorem sendCancel_get?_invalid (rc : ReplicasConnections) (j : Nat) (s : Replica)
    (hs : rc.replicas.get? j = some s) (hv : s.is_valid = false) :
    (sendCancel rc).replicas.get? j = some s := by
  rw [sendCancel_get? rc j s hs, if_neg (by rw [hv]; exact Bool.false_ne_true)]

/-- `drainReplica` leaves an invalid replica untouched. -/
theorem drainReplica_invalid (s : Replica) (hv : s.is_valid = false) :
    drainReplica s = some s := by
  simp [drainReplica, hv]

/-- `drainReplica` after a cancel drains the original stream. -/
theorem drainReplica_cancelled (s : Replica) (hv : s.is_valid = true) :
    drainReplica { s with conn :=
        { s.conn with cancel_count := s.conn.cancel_count + 1 } } =
      (drainConn s.conn.stream).map fun st => { s with conn :=
        { s.conn with cancel_count := s.conn.cancel_count + 1, stream := st } } := by
  simp [drainReplica, hv]

/-- One unfolding of the inner loop on a valid replica with a pending
packet. -/
theorem innerLoop_succ_valid (fuel : Nat) (rc : ReplicasConnections) (i : Nat)
    (retry : Bool) (r : Replica) (pkt : Packet) (rest : List Packet)
    (rc2 : ReplicasConnections) (retry2 : Bool) (r2 : Replica)
    (hr : rc.replicas.get? i = some r) (hv : r.is_valid = true)
    (hs : r.conn.stream = pkt :: rest)
    (hstep : classifyStep rc i r pkt rest retry = some (rc2, retry2))
    (h2 : rc2.replicas.get? i = some r2) :
    innerLoop (fuel + 1) rc i retry =
      if r2.next_packet_number = rc2.next_packet_number ∧ retry2 = false then
        .ret pkt { setReplica rc2 i
            { r2 with next_packet_number := r2.next_packet_number + 1 } with
          next_packet_number := rc2.next_packet_number + 1 }
      else innerLoop fuel
        (setReplica rc2 i { r2 with next_packet_number := r2.next_packet_number + 1 })
        i false := by
  simp only [innerLoop, hr, hv, hs, hstep, h2, if_true]

/-- One unfolding of the inner loop on an invalid replica. -/
theorem innerLoop_succ_invalid (fuel : Nat) (rc : ReplicasConnections) (i : Nat)
    (retry : Bool) (r : Replica)
    (hr : rc.replicas.get? i = some r) (hv : r.is_valid = false) :
    innerLoop (fuel + 1) rc i retry = .exitInvalid rc := by
  simp only [innerLoop, hr, hv, Bool.false_eq_true, if_false]

/-- C3: when `receivePacket` classifies a packet as Terminal (`EndOfStream`
or `Exception`), the emitting replica is marked invalid,
`valid_replicas_count` is decremented exactly once, every *other* still-valid
replica receives exactly one cancel and has its buffered stream drained to
its next terminal packet, invalid replicas are untouched — all before the
call can return; and the terminal packet itself is still returned to the
caller when it wins under the ordering rule (counter equality, no retry). -/
theorem terminal_packet_spec (rc : ReplicasConnections) (i : Nat) (r : Replica)
    (pkt : Packet) (rest : List Packet) (retry : Bool)
    (rc2 : ReplicasConnections) (retry2 : Bool)
    (hr : rc.replicas.get? i = some r)
    (hterm : pkt.ptype = PacketType.endOfStream ∨ pkt.ptype = PacketType.exception)
    (hstep : classifyStep rc i r pkt rest retry = some (rc2, retry2)) :
    retry2 = retry ∧
    rc2.valid_replicas_count = rc.valid_replicas_count - 1 ∧
    rc2.next_packet_number = rc.next_packet_number ∧
    rc2.replicas.get? i = some
      { r with conn := { r.conn with stream := rest }, is_valid := false } ∧
    (∀ j s, j ≠ i → rc.replicas.get? j = some s → s.is_valid = true →
      ∃ st, drainConn s.conn.stream = some st ∧
        rc2.replicas.get? j = some { s with conn :=
          { s.conn with cancel_count := s.conn.cancel_count + 1, stream := st } }) ∧
    (∀ j s, j ≠ i → rc.replicas.get? j = some s → s.is_valid = false →
      rc2.replicas.get? j = some s) ∧
    (r.is_valid = true → r.conn.stream = pkt :: rest → retry2 = false →
      ∀ fuel r2, rc2.replicas.get? i = some r2 →
        r2.next_packet_number = rc2.next_packet_number →
        innerLoop (fuel + 1) rc i retry = .ret pkt
          { setReplica rc2 i
              { r2 with next_packet_number := r2.next_packet_number + 1 } with
            next_packet_number := rc2.next_packet_number + 1 }) := by
  have hlen : i < rc.replicas.length := (List.get?_eq_some.1 hr).1
  rw [classifyStep_terminal rc i r pkt rest retry hterm] at hstep
  cases hd : drainResidual (sendCancel
      { setReplica rc i
          { r with conn := { r.conn with stream := rest }, is_valid := false } with
        valid_replicas_count := rc.valid_replicas_count - 1 }) with
  | none => rw [hd] at hstep; cases hstep
  | some rc3 =>
    rw [hd, Option.map_some'] at hstep
    cases hstep
    rcases drainResidual_get? _ _ hd with ⟨hcnt, hnext, -, hget⟩
    have hseti : ({ setReplica rc i
        { r with conn := { r.conn with stream := rest }, is_valid := false } with
        valid_replicas_count := rc.valid_replicas_count - 1 }).replicas.get? i =
        some { r with conn := { r.conn with stream := rest }, is_valid := false } :=
      List.get?_set_eq_of_lt _ hlen
    have hsetj : ∀ j, j ≠ i → ({ setReplica rc i
        { r with conn := { r.conn with stream := rest }, is_valid := false } with
        valid_replicas_count := rc.valid_replicas_count - 1 }).replicas.get? j =
        rc.replicas.get? j :=
      fun j hj => List.get?_set_ne _ _ (fun he => hj he.symm)
    refine ⟨rfl, hcnt, hnext, ?_, ?_, ?_, ?_⟩
    · have hci := sendCancel_get?_invalid _ i _ hseti rfl
      rcases hget i _ hci with ⟨s2, hdr, hs2⟩
      rw [drainReplica_invalid _ rfl] at hdr
      cases hdr
      exact hs2
    · intro j s hj hjs hsv
      have hcj := sendCancel_get?_valid _ j s (by rw [hsetj j hj]; exact hjs) hsv
      rcases hget j _ hcj with ⟨s2, hdr, hs2⟩
      rw [drainReplica_cancelled s hsv] at hdr
      cases hdc : drainConn s.conn.stream with
      | none => rw [hdc] at hdr; cases hdr
      | some st =>
        rw [hdc, Option.map_some'] at hdr
        cases hdr
        exact ⟨st, rfl, hs2⟩
    · intro j s hj hjs hsv
      have hcj := sendCancel_get?_invalid _ j s (by rw [hsetj j hj]; exact hjs) hsv
      rcases hget j _ hcj with ⟨s2, hdr, hs2⟩
      rw [drainReplica_invalid s hsv] at hdr
      cases hdr
      exact hs2
    · intro hv hs hret fuel r2 h2 hnum
      have := innerLoop_succ_valid fuel rc i retry r pkt rest rc2 retry r2 hr hv hs
        (by rw [classifyStep_terminal rc i r pkt rest retry hterm, hd,
          Option.map_some']) h2
      rw [this, if_pos ⟨hnum, hret⟩]

/-- C4: when `receivePacket` classifies a packet as unrecognized, the
emitting replica is marked invalid and `valid_replicas_count` decremented;
the retry flag is raised exactly when other valid replicas remain (or it was
already raised); no other replica is touched at all — no cancel, no drain;
nothing is returned for this step (the inner loop exits with the replica
invalid) and any subsequent successful pick selects a different replica. -/
theorem unrecognized_packet_spec (rc : ReplicasConnections) (i : Nat)
    (r : Replica) (pkt : Packet) (rest : List Packet) (retry : Bool)
    (rc2 : ReplicasConnections) (retry2 : Bool)
    (hr : rc.replicas.get? i = some r)
    (hu : pkt.ptype = PacketType.unrecognized)
    (hstep : classifyStep rc i r pkt rest retry = some (rc2, retry2)) :
    rc2.valid_replicas_count = rc.valid_replicas_count - 1 ∧
    rc2.next_packet_number = rc.next_packet_number ∧
    rc2.replicas.get? i = some
      { r with conn := { r.conn with stream := rest }, is_valid := false } ∧
    (retry2 = true ↔ (0 < rc2.valid_replicas_count ∨ retry = true)) ∧
    (∀ j, j ≠ i → rc2.replicas.get? j = rc.replicas.get? j) ∧
    (r.is_valid = true → r.conn.stream = pkt :: rest → retry2 = true →
      ∀ fuel r2, rc2.replicas.get? i = some r2 →
        innerLoop (fuel + 1 + 1) rc i retry = .exitInvalid
          (setReplica rc2 i
            { r2 with next_packet_number := r2.next_packet_number + 1 })) ∧
    (∀ rcB : ReplicasConnections, ∀ rB : Replica,
      rcB.replicas.get? i = some rB → rB.is_valid = false →
      ∀ poll j rc4, pickConnection rcB poll = .ok j rc4 → j ≠ i) := by
  have hlen : i < rc.replicas.length := (List.get?_eq_some.1 hr).1
  rw [classifyStep_unrecognized rc i r pkt rest retry hu] at hstep
  injection hstep with h1
  injection h1 with hA hB
  subst hA
  subst hB
  refine ⟨rfl, rfl, List.get?_set_eq_of_lt _ hlen, ?_, ?_, ?_, ?_⟩
  · by_cases hc : rc.valid_replicas_count - 1 > 0
    · rw [if_pos hc]
      exact ⟨fun _ => Or.inl hc, fun _ => rfl⟩
    · rw [if_neg hc]
      exact ⟨fun hrt => Or.inr hrt,
        fun h => h.elim (fun hp => absurd hp hc) id⟩
  · intro j hj
    exact List.get?_set_ne _ _ (fun he => hj he.symm)
  · intro hv hs hret fuel r2 h2
    have h3 : some
        ({ r with conn := { r.conn with stream := rest }, is_valid := false } : Replica) =
        some r2 := by
      rw [← h2]
      exact (List.get?_set_eq_of_lt _ hlen).symm
    cases h3
    rw [innerLoop_succ_valid (fuel + 1) rc i retry r pkt rest _ _ _ hr hv hs
      (classifyStep_unrecognized rc i r pkt rest retry hu)
      (List.get?_set_eq_of_lt _ hlen)]
    rw [if_neg (by rw [hret]; simp)]
    exact innerLoop_succ_invalid fuel _ i false _
      (List.get?_set_eq_of_lt _ (by
        show i < (rc.replicas.set i
          ({ r with conn := { r.conn with stream := rest }, is_valid := false } : Replica)).length
        rw [List.length_set]
        exact hlen)) rfl
  · intro rcB rB hB2 hBv poll j rc4 hok
    exact pickConnection_ok_ne_invalid rcB poll i j rc4 rB hB2 hBv hok

/-! ## Invariants (C6) -/

/-- The count invariant: `valid_replicas_count` equals the number of entries
with `is_valid = true`. -/
def Inv (rc : ReplicasConnections) : Prop :=
  rc.valid_replicas_count = countValid rc

/-- Monotone evolution between two states: the replica table keeps its size,
a replica once invalid stays invalid, and `next_packet_number` never
decreases. -/
def Mono (rc rc2 : ReplicasConnections) : Prop :=
  rc2.replicas.length = rc.replicas.length ∧
  ∀ i r r2, rc.replicas.get? i = some r → rc2.replicas.get? i = some r2 →
    (r.is_valid = false → r2.is_valid = false) ∧
    r.next_packet_number ≤ r2.next_packet_number

theorem Mono.refl (rc : ReplicasConnections) : Mono rc rc :=
  ⟨rfl, fun _ r r2 h1 h2 => by
    rw [h1] at h2
    cases h2
    exact ⟨id, le_refl _⟩⟩

theorem Mono.trans {a b c : ReplicasConnections} (h1 : Mono a b) (h2 : Mono b c) :
    Mono a c := by
  refine ⟨h1.1 ▸ h2.1, fun i r r2 ha hc => ?_⟩
  have hib : i < b.replicas.length := by
    rw [h1.1]
    exact (List.get?_eq_some.1 ha).1
  rcases List.get?_eq_some.1 (List.get?_eq_get hib) with ⟨-, -⟩
  have hb : b.replicas.get? i = some (b.replicas.get ⟨i, hib⟩) := List.get?_eq_get hib
  rcases h1.2 i r _ ha hb with ⟨hv1, hn1⟩
  rcases h2.2 i _ r2 hb hc with ⟨hv2, hn2⟩
  exact ⟨fun hf => hv2 (hv1 hf), le_trans hn1 hn2⟩

/-- Two pointwise validity-equal replica lists have the same valid count. -/
theorem length_filter_eq_of_forall2 :
    ∀ (l1 l2 : List Replica), l1.length = l2.length →
      (∀ i r1 r2, l1.get? i = some r1 → l2.get? i = some r2 →
        r1.is_valid = r2.is_valid) →
      (l1.filter fun r => r.is_valid).length =
        (l2.filter fun r => r.is_valid).length := by
  intro l1
  induction l1 with
  | nil =>
    intro l2 hlen _
    cases l2 with
    | nil => rfl
    | cons b bs => cases hlen
  | cons a rest ih =>
    intro l2 hlen hpt
    cases l2 with
    | nil => cases hlen
    | cons b bs =>
      have h0 : a.is_valid = b.is_valid := hpt 0 a b rfl rfl
      have hrec := ih bs (by simpa using hlen)
        (fun i r1 r2 h1 h2 => hpt (i + 1) r1 r2 h1 h2)
      by_cases hv : a.is_valid = true
      · rw [List.filter_cons, List.filter_cons, if_pos hv, if_pos (h0 ▸ hv)]
        simpa using hrec
      · rw [List.filter_cons, List.filter_cons, if_neg hv, if_neg (h0 ▸ hv)]
        exact hrec

/-- Invalidating a valid entry drops the valid count by exactly one. -/
theorem countValid_set_invalidate :
    ∀ (rs : List Replica) (i : Nat) (r r2 : Replica),
      rs.get? i = some r → r.is_valid = true → r2.is_valid = false →
      ((rs.set i r2).filter fun x => x.is_valid).length + 1 =
        (rs.filter fun x => x.is_valid).length := by
  intro rs
  induction rs with
  | nil => intro i r r2 h; cases h
  | cons a rest ih =>
    intro i r r2 hr hv hv2
    cases i with
    | zero =>
      cases hr
      simp [List.filter_cons, hv, hv2]
    | succ j =>
      have hih := ih j r r2 hr hv hv2
      rw [List.set_cons_succ, List.filter_cons, List.filter_cons]
      by_cases ha : a.is_valid = true
      · rw [if_pos ha, if_pos ha]
        simp only [List.length_cons]
        omega
      · rw [if_neg ha, if_neg ha]
        omega

/-- Replacing an entry by one with the same validity keeps the valid count. -/
theorem countValid_set_same :
    ∀ (rs : List Replica) (i : Nat) (r r2 : Replica),
      rs.get? i = some r → r2.is_valid = r.is_valid →
      ((rs.set i r2).filter fun x => x.is_valid).length =
        (rs.filter fun x => x.is_valid).length := by
  intro rs
  induction rs with
  | nil => intro i r r2 h; cases h
  | cons a rest ih =>
    intro i r r2 hr hsame
    cases i with
    | zero =>
      cases hr
      by_cases hv : a.is_valid = true
      · rw [List.set_cons_zero, List.filter_cons, List.filter_cons,
          if_pos hv, if_pos (by rw [hsame]; exact hv)]
        rfl
      · rw [List.set_cons_zero, List.filter_cons, List.filter_cons,
          if_neg hv, if_neg (by rw [hsame]; exact hv)]
    | succ j =>
      have hih := ih j r r2 hr hsame
      rw [List.set_cons_succ, List.filter_cons, List.filter_cons]
      by_cases ha : a.is_valid = true
      · rw [if_pos ha, if_pos ha]
        simp only [List.length_cons]
        omega
      · rw [if_neg ha, if_neg ha]
        omega

/-- The count invariant transfers along a pointwise validity-preserving
state change that keeps both the table size and the counter field. -/
theorem Inv_of_pointwise (rc rc2 : ReplicasConnections) (hinv : Inv rc)
    (hcnt : rc2.valid_replicas_count = rc.valid_replicas_count)
    (hlen : rc2.replicas.length = rc.replicas.length)
    (hpt : ∀ i r r2, rc.replicas.get? i = some r →
      rc2.replicas.get? i = some r2 → r2.is_valid = r.is_valid) :
    Inv rc2 := by
  show rc2.valid_replicas_count = countValid rc2
  rw [hcnt, hinv]
  unfold countValid
  exact length_filter_eq_of_forall2 rc.replicas rc2.replicas hlen.symm
    (fun i r1 r2 h1 h2 => (hpt i r1 r2 h1 h2).symm)

/-- Monotonicity holds trivially for a state change that preserves validity
and the per-replica counters pointwise. -/
theorem Mono_of_pointwise (rc rc2 : ReplicasConnections)
    (hlen : rc2.replicas.length = rc.replicas.length)
    (hpt : ∀ i r r2, rc.replicas.get? i = some r →
      rc2.replicas.get? i = some r2 →
      r2.is_valid = r.is_valid ∧ r2.next_packet_number = r.next_packet_number) :
    Mono rc rc2 :=
  ⟨hlen, fun i r r2 h1 h2 =>
    ⟨fun hf => by rw [(hpt i r r2 h1 h2).1, hf],
     le_of_eq (hpt i r r2 h1 h2).2.symm⟩⟩

/-- The poll does not change the size of the replica table. -/
theorem waitForReadEvent_length (rc : ReplicasConnections) (poll : List Bool) :
    (waitForReadEvent rc poll).2.replicas.length = rc.replicas.length := by
  by_cases h0 : rc.valid_replicas_count = 0 <;>
    simp [waitForReadEvent, h0]

/-- The poll does not change either counter. -/
theorem waitForReadEvent_counters (rc : ReplicasConnections) (poll : List Bool) :
    (waitForReadEvent rc poll).2.next_packet_number = rc.next_packet_number ∧
    (waitForReadEvent rc poll).2.valid_replicas_count = rc.valid_replicas_count := by
  by_cases h0 : rc.valid_replicas_count = 0 <;>
    simp [waitForReadEvent, h0]

/-- The poll preserves the count invariant and is monotone. -/
theorem waitForReadEvent_Inv_Mono (rc : ReplicasConnections) (poll : List Bool)
    (hinv : Inv rc) :
    Inv (waitForReadEvent rc poll).2 ∧ Mono rc (waitForReadEvent rc poll).2 := by
  have hlen := waitForReadEvent_length rc poll
  have hpt : ∀ j s, rc.replicas.get? j = some s →
      ∃ s2, (waitForReadEvent rc poll).2.replicas.get? j = some s2 ∧
        s2.is_valid = s.is_valid ∧ s2.next_packet_number = s.next_packet_number :=
    fun j s hs => by
      rcases waitForReadEvent_preserves rc poll j s hs with ⟨s2, h1, h2, h3, -⟩
      exact ⟨s2, h1, h2, h3⟩
  have hpt2 : ∀ i r r2, rc.replicas.get? i = some r →
      (waitForReadEvent rc poll).2.replicas.get? i = some r2 →
      r2.is_valid = r.is_valid ∧ r2.next_packet_number = r.next_packet_number :=
    fun i r r2 h1 h2 => by
      rcases hpt i r h1 with ⟨s2, hs2, hv, hn⟩
      rw [h2] at hs2
      cases hs2
      exact ⟨hv, hn⟩
  exact ⟨Inv_of_pointwise rc _ hinv (waitForReadEvent_counters rc poll).2 hlen
      (fun i r r2 h1 h2 => (hpt2 i r r2 h1 h2).1),
    Mono_of_pointwise rc _ hlen hpt2⟩

/-- The state carried by a `NO_AVAILABLE_REPLICA` throw is the post-poll
state. -/
theorem pickConnection_noReplica_state (rc : ReplicasConnections)
    (poll : List Bool) (rc1 : ReplicasConnections)
    (h : pickConnection rc poll = .noReplica rc1) :
    rc1 = (waitForReadEvent rc poll).2 := by
  simp only [pickConnection] at h
  cases hres : (if (waitForReadEvent rc poll).1 > 0 then
      pickScanAux (waitForReadEvent rc poll).2.replicas.enum (-1) none
    else none) with
  | none => rw [hres] at h; cases h; rfl
  | some i2 => rw [hres] at h; cases h

/-- `drainReplica` never changes validity or the sequence counter. -/
theorem drainReplica_preserves (s s2 : Replica) (h : drainReplica s = some s2) :
    s2.is_valid = s.is_valid ∧ s2.next_packet_number = s.next_packet_number := by
  unfold drainReplica at h
  by_cases hv : s.is_valid = true
  · rw [if_pos hv] at h
    cases hd : drainConn s.conn.stream with
    | none => rw [hd] at h; cases h
    | some st => rw [hd, Option.map_some'] at h; cases h; exact ⟨rfl, rfl⟩
  · rw [if_neg hv] at h
    cases h
    exact ⟨rfl, rfl⟩

/-- The residual drain preserves the count invariant and is monotone. -/
theorem drainResidual_Inv_Mono (rc rc2 : ReplicasConnections)
    (h : drainResidual rc = some rc2) (hinv : Inv rc) :
    Inv rc2 ∧ Mono rc rc2 := by
  rcases drainResidual_get? rc rc2 h with ⟨hcnt, -, hlen, hget⟩
  have hpt : ∀ j s, rc.replicas.get? j = some s →
      ∃ s2, rc2.replicas.get? j = some s2 ∧
        s2.is_valid = s.is_valid ∧ s2.next_packet_number = s.next_packet_number :=
    fun j s hs => by
      rcases hget j s hs with ⟨s2, hdr, hs2⟩
      rcases drainReplica_preserves s s2 hdr with ⟨hv, hn⟩
      exact ⟨s2, hs2, hv, hn⟩
  have hpt2 : ∀ i r r2, rc.replicas.get? i = some r →
      rc2.replicas.get? i = some r2 →
      r2.is_valid = r.is_valid ∧ r2.next_packet_number = r.next_packet_number :=
    fun i r r2 h1 h2 => by
      rcases hpt i r h1 with ⟨s2, hs2, hv, hn⟩
      rw [h2] at hs2
      cases hs2
      exact ⟨hv, hn⟩
  exact ⟨Inv_of_pointwise rc rc2 hinv hcnt hlen
      (fun i r r2 h1 h2 => (hpt2 i r r2 h1 h2).1),
    Mono_of_pointwise rc rc2 hlen hpt2⟩

/-- A validity-preserving per-replica map preserves the count invariant and
is monotone.  Covers `sendCancel`, `disconnect` and `sendQuery`. -/
theorem map_replicas_Inv_Mono (rc : ReplicasConnections) (f : Replica → Replica)
    (hf : ∀ r, (f r).is_valid = r.is_valid ∧
      (f r).next_packet_number = r.next_packet_number)
    (hinv : Inv rc) :
    Inv { rc with replicas := rc.replicas.map f } ∧
    Mono rc { rc with replicas := rc.replicas.map f } := by
  have hpt : ∀ j s, rc.replicas.get? j = some s →
      ({ rc with replicas := rc.replicas.map f } :
        ReplicasConnections).replicas.get? j = some (f s) :=
    fun j s hs => by
      show (rc.replicas.map f).get? j = _
      rw [List.get?_map, hs]
      rfl
  have hpt2 : ∀ i r r2, rc.replicas.get? i = some r →
      ({ rc with replicas := rc.replicas.map f } :
        ReplicasConnections).replicas.get? i = some r2 →
      r2.is_valid = r.is_valid ∧ r2.next_packet_number = r.next_packet_number :=
    fun i r r2 h1 h2 => by
      have := hpt i r h1
      rw [h2] at this
      cases this
      exact ⟨(hf r).1, (hf r).2⟩
  exact ⟨Inv_of_pointwise rc _ hinv rfl (by simp)
      (fun i r r2 h1 h2 => (hpt2 i r r2 h1 h2).1),
    Mono_of_pointwise rc _ (by simp) hpt2⟩

/-- Pointwise description of `setReplica`. -/
theorem setReplica_pointwise (rc : ReplicasConnections) (i : Nat)
    (rOld rNew : Replica) (hr : rc.replicas.get? i = some rOld) :
    ∀ j s s2, rc.replicas.get? j = some s →
      (setReplica rc i rNew).replicas.get? j = some s2 →
      (s = rOld ∧ s2 = rNew) ∨ s2 = s := by
  intro j s s2 hs hs2
  by_cases hj : j = i
  · subst hj
    rw [hr] at hs
    cases hs
    have : (setReplica rc j rNew).replicas.get? j = some rNew :=
      List.get?_set_eq_of_lt _ (List.get?_eq_some.1 hr).1
    rw [this] at hs2
    cases hs2
    exact Or.inl ⟨rfl, rfl⟩
  · have : (setReplica rc i rNew).replicas.get? j = rc.replicas.get? j :=
      List.get?_set_ne _ _ (fun he => hj he.symm)
    rw [this, hs] at hs2
    cases hs2
    exact Or.inr rfl

/-- Invalidating a valid replica and decrementing the counter preserves the
count invariant. -/
theorem invalidate_Inv (rc : ReplicasConnections) (i : Nat) (r rInv : Replica)
    (hr : rc.replicas.get? i = some r) (hv : r.is_valid = true)
    (hvi : rInv.is_valid = false) (hinv : Inv rc) :
    Inv { setReplica rc i rInv with
          valid_replicas_count := rc.valid_replicas_count - 1 } := by
  have hplus := countValid_set_invalidate rc.replicas i r rInv hr hv hvi
  have hinv2 : rc.valid_replicas_count =
      (rc.replicas.filter fun x => x.is_valid).length := hinv
  show rc.valid_replicas_count - 1 =
    ((rc.replicas.set i rInv).filter fun x => x.is_valid).length
  omega

/-- Invalidating a replica is a monotone transition. -/
theorem invalidate_Mono (rc : ReplicasConnections) (i : Nat) (r rInv : Replica)
    (hr : rc.replicas.get? i = some r) (hvi : rInv.is_valid = false)
    (hnext : r.next_packet_number ≤ rInv.next_packet_number) :
    Mono rc { setReplica rc i rInv with
              valid_replicas_count := rc.valid_replicas_count - 1 } := by
  refine ⟨List.length_set _ _ _, fun j s s2 hs hs2 => ?_⟩
  rcases setReplica_pointwise rc i r rInv hr j s s2 hs hs2 with ⟨rfl, rfl⟩ | rfl
  · exact ⟨fun _ => hvi, hnext⟩
  · exact ⟨id, le_refl _⟩

/-- Incrementing a replica's sequence counter preserves the count invariant
and is monotone. -/
theorem bump_Inv_Mono (rcM : ReplicasConnections) (i : Nat) (r2 : Replica)
    (hgi : rcM.replicas.get? i = some r2) (hinvM : Inv rcM) :
    Inv (setReplica rcM i
      { r2 with next_packet_number := r2.next_packet_number + 1 }) ∧
    Mono rcM (setReplica rcM i
      { r2 with next_packet_number := r2.next_packet_number + 1 }) := by
  constructor
  · refine Inv_of_pointwise rcM _ hinvM rfl (List.length_set _ _ _) ?_
    intro j s s2 hs hs2
    rcases setReplica_pointwise rcM i r2 _ hgi j s s2 hs hs2 with ⟨rfl, rfl⟩ | rfl
    · rfl
    · rfl
  · refine ⟨List.length_set _ _ _, fun j s s2 hs hs2 => ?_⟩
    rcases setReplica_pointwise rcM i r2 _ hgi j s s2 hs hs2 with ⟨rfl, rfl⟩ | rfl
    · exact ⟨fun hf => hf, Nat.le_succ _⟩
    · exact ⟨id, le_refl _⟩

/-- The `switch` of the inner loop never changes the global sequence cursor
or the size of the replica table. -/
theorem classifyStep_next_len (rc : ReplicasConnections) (i : Nat) (r : Replica)
    (pkt : Packet) (rest : List Packet) (retry : Bool)
    (rcM : ReplicasConnections) (retryM : Bool)
    (hstep : classifyStep rc i r pkt rest retry = some (rcM, retryM)) :
    rcM.next_packet_number = rc.next_packet_number ∧
    rcM.replicas.length = rc.replicas.length := by
  have hterm : pkt.ptype = PacketType.endOfStream ∨ pkt.ptype = PacketType.exception →
      rcM.next_packet_number = rc.next_packet_number ∧
      rcM.replicas.length = rc.replicas.length := by
    intro ht
    rw [classifyStep_terminal rc i r pkt rest retry ht] at hstep
    cases hd : drainResidual (sendCancel
        { setReplica rc i
            { r with conn := { r.conn with stream := rest }, is_valid := false } with
          valid_replicas_count := rc.valid_replicas_count - 1 }) with
    | none => rw [hd] at hstep; cases hstep
    | some rc3 =>
      rw [hd, Option.map_some'] at hstep
      cases hstep
      rcases drainResidual_get? _ _ hd with ⟨-, hnext, hlen, -⟩
      refine ⟨hnext, ?_⟩
      rw [hlen]
      simp [sendCancel, setReplica]
  cases hpt : pkt.ptype with
  | data =>
    rw [classifyStep_streamable rc i r pkt rest retry (Or.inl hpt)] at hstep
    cases hstep
    exact ⟨rfl, List.length_set _ _ _⟩
  | progress =>
    rw [classifyStep_streamable rc i r pkt rest retry (Or.inr (Or.inl hpt))] at hstep
    cases hstep
    exact ⟨rfl, List.length_set _ _ _⟩
  | profileInfo =>
    rw [classifyStep_streamable rc i r pkt rest retry
      (Or.inr (Or.inr (Or.inl hpt)))] at hstep
    cases hstep
    exact ⟨rfl, List.length_set _ _ _⟩
  | totals =>
    rw [classifyStep_streamable rc i r pkt rest retry
      (Or.inr (Or.inr (Or.inr (Or.inl hpt))))] at hstep
    cases hstep
    exact ⟨rfl, List.length_set _ _ _⟩
  | extremes =>
    rw [classifyStep_streamable rc i r pkt rest retry
      (Or.inr (Or.inr (Or.inr (Or.inr hpt))))] at hstep
    cases hstep
    exact ⟨rfl, List.length_set _ _ _⟩
  | endOfStream => exact hterm (Or.inl hpt)
  | exception => exact hterm (Or.inr hpt)
  | unrecognized =>
    rw [classifyStep_unrecognized rc i r pkt rest retry hpt] at hstep
    injection hstep with h1
    injection h1 with hA hB
    subst hA
    exact ⟨rfl, List.length_set _ _ _⟩

/-- The `switch` of the inner loop preserves the count invariant and is
monotone. -/
theorem classifyStep_Inv_Mono (rc : ReplicasConnections) (i : Nat) (r : Replica)
    (pkt : Packet) (rest : List Packet) (retry : Bool)
    (rcM : ReplicasConnections) (retryM : Bool)
    (hr : rc.replicas.get? i = some r) (hv : r.is_valid = true)
    (hstep : classifyStep rc i r pkt rest retry = some (rcM, retryM))
    (hinv : Inv rc) : Inv rcM ∧ Mono rc rcM := by
  have hstreamable : classifyStep rc i r pkt rest retry =
      some (setReplica rc i { r with conn := { r.conn with stream := rest } },
        retry) → Inv rcM ∧ Mono rc rcM := by
    intro hs2
    rw [hs2] at hstep
    injection hstep with h1
    injection h1 with hA hB
    subst hA
    have hpt2 : ∀ j s s2, rc.replicas.get? j = some s →
        (setReplica rc i
          { r with conn := { r.conn with stream := rest } }).replicas.get? j =
          some s2 →
        s2.is_valid = s.is_valid ∧ s2.next_packet_number = s.next_packet_number := by
      intro j s s2 hs hs2b
      rcases setReplica_pointwise rc i r _ hr j s s2 hs hs2b with ⟨rfl, rfl⟩ | rfl
      · exact ⟨rfl, rfl⟩
      · exact ⟨rfl, rfl⟩
    exact ⟨Inv_of_pointwise rc _ hinv rfl (List.length_set _ _ _)
        (fun j s s2 h1 h2 => (hpt2 j s s2 h1 h2).1),
      Mono_of_pointwise rc _ (List.length_set _ _ _) hpt2⟩
  have hterm : pkt.ptype = PacketType.endOfStream ∨ pkt.ptype = PacketType.exception →
      Inv rcM ∧ Mono rc rcM := by
    intro ht
    rw [classifyStep_terminal rc i r pkt rest retry ht] at hstep
    cases hd : drainResidual (sendCancel
        { setReplica rc i
            { r with conn := { r.conn with stream := rest }, is_valid := false } with
          valid_replicas_count := rc.valid_replicas_count - 1 }) with
    | none => rw [hd] at hstep; cases hstep
    | some rc3 =>
      rw [hd, Option.map_some'] at hstep
      cases hstep
      have hInv1 := invalidate_Inv rc i r
        { r with conn := { r.conn with stream := rest }, is_valid := false }
        hr hv rfl hinv
      have hMono1 := invalidate_Mono rc i r
        { r with conn := { r.conn with stream := rest }, is_valid := false }
        hr rfl (le_refl _)
      have h2 := map_replicas_Inv_Mono
        { setReplica rc i
            { r with conn := { r.conn with stream := rest }, is_valid := false } with
          valid_replicas_count := rc.valid_replicas_count - 1 }
        (fun s => if s.is_valid then
          { s with conn := { s.conn with cancel_count := s.conn.cancel_count + 1 } }
          else s)
        (fun s => by by_cases hsv : s.is_valid = true <;> simp [hsv])
        hInv1
      have h3 := drainResidual_Inv_Mono _ rcM hd h2.1
      exact ⟨h3.1, Mono.trans hMono1 (Mono.trans h2.2 h3.2)⟩
  cases hpt : pkt.ptype with
  | data => exact hstreamable (classifyStep_streamable _ _ _ _ _ _ (Or.inl hpt))
  | progress =>
    exact hstreamable (classifyStep_streamable _ _ _ _ _ _ (Or.inr (Or.inl hpt)))
  | profileInfo =>
    exact hstreamable (classifyStep_streamable _ _ _ _ _ _
      (Or.inr (Or.inr (Or.inl hpt))))
  | totals =>
    exact hstreamable (classifyStep_streamable _ _ _ _ _ _
      (Or.inr (Or.inr (Or.inr (Or.inl hpt)))))
  | extremes =>
    exact hstreamable (classifyStep_streamable _ _ _ _ _ _
      (Or.inr (Or.inr (Or.inr (Or.inr hpt)))))
  | endOfStream => exact hterm (Or.inl hpt)
  | exception => exact hterm (Or.inr hpt)
  | unrecognized =>
    rw [classifyStep_unrecognized rc i r pkt rest retry hpt] at hstep
    injection hstep with h1
    injection h1 with hA hB
    subst hA
    exact ⟨invalidate_Inv rc i r _ hr hv rfl hinv,
      invalidate_Mono rc i r _ hr rfl (le_refl _)⟩

/-- The inner loop advances the global cursor by exactly one on a return
(and the returning replica's counter matches it), and not at all on an
invalid-exit. -/
theorem innerLoop_next :
    ∀ (fuel : Nat) (rc : ReplicasConnections) (i : Nat) (retry : Bool),
    (∀ pkt rc2, innerLoop fuel rc i retry = .ret pkt rc2 →
      rc2.next_packet_number = rc.next_packet_number + 1 ∧
      ∃ r2, rc2.replicas.get? i = some r2 ∧
        r2.next_packet_number = rc2.next_packet_number) ∧
    (∀ rc2, innerLoop fuel rc i retry = .exitInvalid rc2 →
      rc2.next_packet_number = rc.next_packet_number) := by
  intro fuel
  induction fuel with
  | zero =>
    intro rc i retry
    exact ⟨(fun pkt rc2 h => by cases h), (fun rc2 h => by cases h)⟩
  | succ fuel ih =>
    intro rc i retry
    cases hri : rc.replicas.get? i with
    | none =>
      have hstuck : innerLoop (fuel + 1) rc i retry = .stuck := by
        simp only [innerLoop, hri]
      exact ⟨(fun pkt rc2 h => by rw [hstuck] at h; cases h),
             (fun rc2 h => by rw [hstuck] at h; cases h)⟩
    | some r =>
      by_cases hv : r.is_valid = true
      · cases hstream : r.conn.stream with
        | nil =>
          have hstuck : innerLoop (fuel + 1) rc i retry = .stuck := by
            simp only [innerLoop, hri, hv, hstream, if_true]
          exact ⟨(fun pkt rc2 h => by rw [hstuck] at h; cases h),
                 (fun rc2 h => by rw [hstuck] at h; cases h)⟩
        | cons pkt0 rest =>
          cases hcs : classifyStep rc i r pkt0 rest retry with
          | none =>
            have hstuck : innerLoop (fuel + 1) rc i retry = .stuck := by
              simp only [innerLoop, hri, hv, hstream, hcs, if_true]
            exact ⟨(fun pkt rc2 h => by rw [hstuck] at h; cases h),
                   (fun rc2 h => by rw [hstuck] at h; cases h)⟩
          | some pr =>
            obtain ⟨rcM, retryM⟩ := pr
            cases hgi : rcM.replicas.get? i with
            | none =>
              have hstuck : innerLoop (fuel + 1) rc i retry = .stuck := by
                simp only [innerLoop, hri, hv, hstream, hcs, hgi, if_true]
              exact ⟨(fun pkt rc2 h => by rw [hstuck] at h; cases h),
                     (fun rc2 h => by rw [hstuck] at h; cases h)⟩
            | some r2 =>
              have hun := innerLoop_succ_valid fuel rc i retry r pkt0 rest rcM
                retryM r2 hri hv hstream hcs hgi
              have hnm := (classifyStep_next_len rc i r pkt0 rest retry rcM
                retryM hcs).1
              by_cases hcond : r2.next_packet_number = rcM.next_packet_number ∧
                  retryM = false
              · rw [if_pos hcond] at hun
                constructor
                · intro pkt rc2 h
                  rw [hun] at h
                  cases h
                  constructor
                  · show rcM.next_packet_number + 1 = rc.next_packet_number + 1
                    rw [hnm]
                  · refine ⟨{ r2 with
                      next_packet_number := r2.next_packet_number + 1 }, ?_, ?_⟩
                    · exact List.get?_set_eq_of_lt _ (List.get?_eq_some.1 hgi).1
                    · show r2.next_packet_number + 1 = rcM.next_packet_number + 1
                      rw [hcond.1]
                · intro rc2 h
                  rw [hun] at h
                  cases h
              · rw [if_neg hcond] at hun
                have hrec := ih (setReplica rcM i
                  { r2 with next_packet_number := r2.next_packet_number + 1 }) i false
                constructor
                · intro pkt rc2 h
                  rw [hun] at h
                  rcases hrec.1 pkt rc2 h with ⟨h1, r3, h2, h3⟩
                  refine ⟨?_, r3, h2, h3⟩
                  rw [h1]
                  show rcM.next_packet_number + 1 = rc.next_packet_number + 1
                  rw [hnm]
                · intro rc2 h
                  rw [hun] at h
                  rw [hrec.2 rc2 h]
                  show rcM.next_packet_number = rc.next_packet_number
                  exact hnm
      · have hvf : r.is_valid = false := by
          revert hv
          cases r.is_valid <;> simp
        have hexit := innerLoop_succ_invalid fuel rc i retry r hri hvf
        exact ⟨(fun pkt rc2 h => by rw [hexit] at h; cases h),
               (fun rc2 h => by rw [hexit] at h; cases h; rfl)⟩

/-- The inner loop preserves the count invariant and is monotone. -/
theorem innerLoop_Inv_Mono :
    ∀ (fuel : Nat) (rc : ReplicasConnections) (i : Nat) (retry : Bool),
    Inv rc →
    (∀ pkt rc2, innerLoop fuel rc i retry = .ret pkt rc2 →
      Inv rc2 ∧ Mono rc rc2) ∧
    (∀ rc2, innerLoop fuel rc i retry = .exitInvalid rc2 →
      Inv rc2 ∧ Mono rc rc2) := by
  intro fuel
  induction fuel with
  | zero =>
    intro rc i retry _
    exact ⟨(fun pkt rc2 h => by cases h), (fun rc2 h => by cases h)⟩
  | succ fuel ih =>
    intro rc i retry hinv
    cases hri : rc.replicas.get? i with
    | none =>
      have hstuck : innerLoop (fuel + 1) rc i retry = .stuck := by
        simp only [innerLoop, hri]
      exact ⟨(fun pkt rc2 h => by rw [hstuck] at h; cases h),
             (fun rc2 h => by rw [hstuck] at h; cases h)⟩
    | some r =>
      by_cases hv : r.is_valid = true
      · cases hstream : r.conn.stream with
        | nil =>
          have hstuck : innerLoop (fuel + 1) rc i retry = .stuck := by
            simp only [innerLoop, hri, hv, hstream, if_true]
          exact ⟨(fun pkt rc2 h => by rw [hstuck] at h; cases h),
                 (fun rc2 h => by rw [hstuck] at h; cases h)⟩
        | cons pkt0 rest =>
          cases hcs : classifyStep rc i r pkt0 rest retry with
          | none =>
            have hstuck : innerLoop (fuel + 1) rc i retry = .stuck := by
              simp only [innerLoop, hri, hv, hstream, hcs, if_true]
            exact ⟨(fun pkt rc2 h => by rw [hstuck] at h; cases h),
                   (fun rc2 h => by rw [hstuck] at h; cases h)⟩
          | some pr =>
            obtain ⟨rcM, retryM⟩ := pr
            cases hgi : rcM.replicas.get? i with
            | none =>
              have hstuck : innerLoop (fuel + 1) rc i retry = .stuck := by
                simp only [innerLoop, hri, hv, hstream, hcs, hgi, if_true]
              exact ⟨(fun pkt rc2 h => by rw [hstuck] at h; cases h),
                     (fun rc2 h => by rw [hstuck] at h; cases h)⟩
            | some r2 =>
              have hun := innerLoop_succ_valid fuel rc i retry r pkt0 rest rcM
                retryM r2 hri hv hstream hcs hgi
              rcases classifyStep_Inv_Mono rc i r pkt0 rest retry rcM retryM
                hri hv hcs hinv with ⟨hInvM, hMonoM⟩
              rcases bump_Inv_Mono rcM i r2 hgi hInvM with ⟨hInvB, hMonoB⟩
              by_cases hcond : r2.next_packet_number = rcM.next_packet_number ∧
                  retryM = false
              · rw [if_pos hcond] at hun
                constructor
                · intro pkt rc2 h
                  rw [hun] at h
                  cases h
                  exact ⟨hInvB, Mono.trans hMonoM hMonoB⟩
                · intro rc2 h
                  rw [hun] at h
                  cases h
              · rw [if_neg hcond] at hun
                have hrec := ih (setReplica rcM i
                  { r2 with next_packet_number := r2.next_packet_number + 1 })
                  i false hInvB
                constructor
                · intro pkt rc2 h
                  rw [hun] at h
                  rcases hrec.1 pkt rc2 h with ⟨h1, h2⟩
                  exact ⟨h1, Mono.trans hMonoM (Mono.trans hMonoB h2)⟩
                · intro rc2 h
                  rw [hun] at h
                  rcases hrec.2 rc2 h with ⟨h1, h2⟩
                  exact ⟨h1, Mono.trans hMonoM (Mono.trans hMonoB h2)⟩
      · have hvf : r.is_valid = false := by
          revert hv
          cases r.is_valid <;> simp
        have hexit := innerLoop_succ_invalid fuel rc i retry r hri hvf
        exact ⟨(fun pkt rc2 h => by rw [hexit] at h; cases h),
               (fun rc2 h => by rw [hexit] at h; cases h; exact ⟨hinv, Mono.refl rc⟩)⟩

/-- `pickConnection` preserves the count invariant and is monotone, on both
exits. -/
theorem pickConnection_Inv_Mono (rc : ReplicasConnections) (poll : List Bool)
    (hinv : Inv rc) :
    (∀ i rc1, pickConnection rc poll = .ok i rc1 → Inv rc1 ∧ Mono rc rc1) ∧
    (∀ rc1, pickConnection rc poll = .noReplica rc1 → Inv rc1 ∧ Mono rc rc1) := by
  constructor
  · intro i rc1 hok
    rw [(pickConnection_ok_picked rc poll i rc1 hok).1]
    exact waitForReadEvent_Inv_Mono rc poll hinv
  · intro rc1 hno
    rw [pickConnection_noReplica_state rc poll rc1 hno]
    exact waitForReadEvent_Inv_Mono rc poll hinv

/-- Construction establishes the count invariant. -/
theorem mk_Inv (conns : List Connection) : Inv (mkReplicasConnections conns) := by
  show conns.length = countValid (mkReplicasConnections conns)
  unfold countValid mkReplicasConnections
  induction conns with
  | nil => rfl
  | cons c rest ih => simpa [List.filter_cons] using ih

/-- `receivePacket` advances the global cursor by exactly one on a packet
return (the returning replica's counter matching it), and not at all on a
`NO_AVAILABLE_REPLICA` throw. -/
theorem receivePacket_next :
    ∀ (fuel : Nat) (rc : ReplicasConnections) (polls : List (List Bool)),
    (∀ pkt rc2 polls2, receivePacket fuel rc polls = .ok pkt rc2 polls2 →
      rc2.next_packet_number = rc.next_packet_number + 1 ∧
      ∃ i r2, rc2.replicas.get? i = some r2 ∧
        r2.next_packet_number = rc2.next_packet_number) ∧
    (∀ rc2 polls2, receivePacket fuel rc polls = .noReplica rc2 polls2 →
      rc2.next_packet_number = rc.next_packet_number) := by
  intro fuel
  induction fuel with
  | zero =>
    intro rc polls
    exact ⟨(fun pkt rc2 polls2 h => by cases h), (fun rc2 polls2 h => by cases h)⟩
  | succ fuel ih =>
    intro rc polls
    cases hp : pickConnection rc (polls.headD []) with
    | noReplica rc1 =>
      have hre : receivePacket (fuel + 1) rc polls = .noReplica rc1 polls.tail := by
        simp only [receivePacket, hp]
      constructor
      · intro pkt rc2 polls2 h
        rw [hre] at h
        cases h
      · intro rc2 polls2 h
        rw [hre] at h
        cases h
        rw [pickConnection_noReplica_state rc _ _ hp]
        exact (waitForReadEvent_counters rc _).1
    | ok i rc1 =>
      have hnext1 : rc1.next_packet_number = rc.next_packet_number := by
        rw [(pickConnection_ok_picked rc _ i rc1 hp).1]
        exact (waitForReadEvent_counters rc _).1
      cases hil : innerLoop (fuel + 1) rc1 i false with
      | ret pkt0 rcM =>
        have hre : receivePacket (fuel + 1) rc polls = .ok pkt0 rcM polls.tail := by
          simp only [receivePacket, hp, hil]
        constructor
        · intro pkt rc2 polls2 h
          rw [hre] at h
          cases h
          rcases (innerLoop_next (fuel + 1) rc1 i false).1 pkt0 rcM hil with
            ⟨h1, r2, h2, h3⟩
          exact ⟨by rw [h1, hnext1], ⟨i, r2, h2, h3⟩⟩
        · intro rc2 polls2 h
          rw [hre] at h
          cases h
      | exitInvalid rcM =>
        have hre : receivePacket (fuel + 1) rc polls =
            receivePacket fuel rcM polls.tail := by
          simp only [receivePacket, hp, hil]
        have hMn : rcM.next_packet_number = rc.next_packet_number := by
          rw [(innerLoop_next (fuel + 1) rc1 i false).2 rcM hil, hnext1]
        constructor
        · intro pkt rc2 polls2 h
          rw [hre] at h
          rcases (ih rcM polls.tail).1 pkt rc2 polls2 h with ⟨h1, hex⟩
          exact ⟨by rw [h1, hMn], hex⟩
        · intro rc2 polls2 h
          rw [hre] at h
          rw [(ih rcM polls.tail).2 rc2 polls2 h, hMn]
      | stuck =>
        have hre : receivePacket (fuel + 1) rc polls = .stuck := by
          simp only [receivePacket, hp, hil]
        exact ⟨(fun pkt rc2 polls2 h => by rw [hre] at h; cases h),
               (fun rc2 polls2 h => by rw [hre] at h; cases h)⟩

/-- `receivePacket` preserves the count invariant and is monotone, on both
non-stuck exits. -/
theorem receivePacket_Inv_Mono :
    ∀ (fuel : Nat) (rc : ReplicasConnections) (polls : List (List Bool)),
    Inv rc →
    (∀ pkt rc2 polls2, receivePacket fuel rc polls = .ok pkt rc2 polls2 →
      Inv rc2 ∧ Mono rc rc2) ∧
    (∀ rc2 polls2, receivePacket fuel rc polls = .noReplica rc2 polls2 →
      Inv rc2 ∧ Mono rc rc2) := by
  intro fuel
  induction fuel with
  | zero =>
    intro rc polls _
    exact ⟨(fun pkt rc2 polls2 h => by cases h), (fun rc2 polls2 h => by cases h)⟩
  | succ fuel ih =>
    intro rc polls hinv
    cases hp : pickConnection rc (polls.headD []) with
    | noReplica rc1 =>
      have hre : receivePacket (fuel + 1) rc polls = .noReplica rc1 polls.tail := by
        simp only [receivePacket, hp]
      constructor
      · intro pkt rc2 polls2 h
        rw [hre] at h
        cases h
      · intro rc2 polls2 h
        rw [hre] at h
        cases h
        exact (pickConnection_Inv_Mono rc _ hinv).2 _ hp
    | ok i rc1 =>
      rcases (pickConnection_Inv_Mono rc _ hinv).1 i rc1 hp with ⟨hinv1, hmono1⟩
      cases hil : innerLoop (fuel + 1) rc1 i false with
      | ret pkt0 rcM =>
        have hre : receivePacket (fuel + 1) rc polls = .ok pkt0 rcM polls.tail := by
          simp only [receivePacket, hp, hil]
        constructor
        · intro pkt rc2 polls2 h
          rw [hre] at h
          cases h
          rcases (innerLoop_Inv_Mono (fuel + 1) rc1 i false hinv1).1 pkt0 rcM hil
            with ⟨h1, h2⟩
          exact ⟨h1, Mono.trans hmono1 h2⟩
        · intro rc2 polls2 h
          rw [hre] at h
          cases h
      | exitInvalid rcM =>
        have hre : receivePacket (fuel + 1) rc polls =
            receivePacket fuel rcM polls.tail := by
          simp only [receivePacket, hp, hil]
        rcases (innerLoop_Inv_Mono (fuel + 1) rc1 i false hinv1).2 rcM hil with
          ⟨hinvM, hmonoM⟩
        constructor
        · intro pkt rc2 polls2 h
          rw [hre] at h
          rcases (ih rcM polls.tail hinvM).1 pkt rc2 polls2 h with ⟨h1, h2⟩
          exact ⟨h1, Mono.trans hmono1 (Mono.trans hmonoM h2)⟩
        · intro rc2 polls2 h
          rw [hre] at h
          rcases (ih rcM polls.tail hinvM).2 rc2 polls2 h with ⟨h1, h2⟩
          exact ⟨h1, Mono.trans hmono1 (Mono.trans hmonoM h2)⟩
      | stuck =>
        have hre : receivePacket (fuel + 1) rc polls = .stuck := by
          simp only [receivePacket, hp, hil]
        exact ⟨(fun pkt rc2 polls2 h => by rw [hre] at h; cases h),
               (fun rc2 polls2 h => by rw [hre] at h; cases h)⟩

/-- Across a run of `receivePacket` calls the global cursor advances by the
number of packets returned. -/
theorem runCalls_next :
    ∀ (n fuel : Nat) (rc : ReplicasConnections) (polls : List (List Bool)),
    (runCalls fuel n rc polls).1.next_packet_number =
      rc.next_packet_number + (runCalls fuel n rc polls).2 := by
  intro n
  induction n with
  | zero => intro fuel rc polls; rfl
  | succ n ih =>
    intro fuel rc polls
    cases hrp : receivePacket fuel rc polls with
    | ok pkt rc1 polls1 =>
      have hre : runCalls fuel (n + 1) rc polls =
          ((runCalls fuel n rc1 polls1).1, (runCalls fuel n rc1 polls1).2 + 1) := by
        simp only [runCalls, hrp]
      rw [hre]
      show (runCalls fuel n rc1 polls1).1.next_packet_number =
        rc.next_packet_number + ((runCalls fuel n rc1 polls1).2 + 1)
      have h1 := ((receivePacket_next fuel rc polls).1 pkt rc1 polls1 hrp).1
      have h2 := ih fuel rc1 polls1
      omega
    | noReplica rc1 polls1 =>
      have hre : runCalls fuel (n + 1) rc polls = runCalls fuel n rc1 polls1 := by
        simp only [runCalls, hrp]
      rw [hre]
      have h1 := (receivePacket_next fuel rc polls).2 rc1 polls1 hrp
      have h2 := ih fuel rc1 polls1
      omega
    | stuck =>
      have hre : runCalls fuel (n + 1) rc polls = (rc, 0) := by
        simp only [runCalls, hrp]
      rw [hre]
      rfl

/-! ## C6 and C1: the claim theorems on invariants and ordering -/

/-- C6: in every reachable coordinator state `valid_replicas_count` equals
the number of replicas with `is_valid = true`, a replica once invalid stays
invalid, and a replica's `next_packet_number` never decreases: the invariant
holds at construction and, together with monotonicity, is preserved by every
operation (poll, pick on both exits, cancel, disconnect, query broadcast,
external-data distribution, residual drain, and `receivePacket` on both
non-blocking exits). -/
theorem invariants_preserved :
    (∀ conns, Inv (mkReplicasConnections conns)) ∧
    (∀ rc poll, Inv rc →
      Inv (waitForReadEvent rc poll).2 ∧ Mono rc (waitForReadEvent rc poll).2) ∧
    (∀ rc poll i rc1, Inv rc → pickConnection rc poll = .ok i rc1 →
      Inv rc1 ∧ Mono rc rc1) ∧
    (∀ rc poll rc1, Inv rc → pickConnection rc poll = .noReplica rc1 →
      Inv rc1 ∧ Mono rc rc1) ∧
    (∀ rc, Inv rc → Inv (sendCancel rc) ∧ Mono rc (sendCancel rc)) ∧
    (∀ rc, Inv rc → Inv (disconnect rc) ∧ Mono rc (disconnect rc)) ∧
    (∀ rc, Inv rc → Inv (sendQuery rc) ∧ Mono rc (sendQuery rc)) ∧
    (∀ rc data rc2, Inv rc → sendExternalTablesData rc data = .ok rc2 →
      Inv rc2 ∧ Mono rc rc2) ∧
    (∀ rc rc2, Inv rc → drainResidual rc = some rc2 → Inv rc2 ∧ Mono rc rc2) ∧
    (∀ fuel rc polls pkt rc2 polls2, Inv rc →
      receivePacket fuel rc polls = .ok pkt rc2 polls2 →
      Inv rc2 ∧ Mono rc rc2) ∧
    (∀ fuel rc polls rc2 polls2, Inv rc →
      receivePacket fuel rc polls = .noReplica rc2 polls2 →
      Inv rc2 ∧ Mono rc rc2) := by
  refine ⟨mk_Inv, waitForReadEvent_Inv_Mono, ?_, ?_, ?_, ?_, ?_, ?_, ?_, ?_, ?_⟩
  · exact fun rc poll i rc1 hinv hok =>
      (pickConnection_Inv_Mono rc poll hinv).1 i rc1 hok
  · exact fun rc poll rc1 hinv hno =>
      (pickConnection_Inv_Mono rc poll hinv).2 rc1 hno
  · exact fun rc hinv => map_replicas_Inv_Mono rc _
      (fun s => by by_cases hsv : s.is_valid = true <;> simp [sendCancel, hsv]) hinv
  · exact fun rc hinv => map_replicas_Inv_Mono rc _
      (fun s => by by_cases hsv : s.is_valid = true <;> simp [disconnect, hsv]) hinv
  · exact fun rc hinv => map_replicas_Inv_Mono rc _ (fun s => ⟨rfl, rfl⟩) hinv
  · intro rc data rc2 hinv hok
    unfold sendExternalTablesData at hok
    by_cases hne : data.length ≠ rc.replicas.length
    · rw [if_pos hne] at hok
      cases hok
    · rw [if_neg hne] at hok
      cases hok
      have hlen2 : data.length = rc.replicas.length := not_not.1 hne
      have hlen : ((rc.replicas.zip data).map fun p =>
          { p.1 with conn := { p.1.conn with
              external_data := p.1.conn.external_data ++ [p.2] } }).length =
          rc.replicas.length := by
        simp [List.length_zip, hlen2]
      have hpt2 : ∀ j s s2, rc.replicas.get? j = some s →
          ((rc.replicas.zip data).map fun p =>
            { p.1 with conn := { p.1.conn with
                external_data := p.1.conn.external_data ++ [p.2] } }).get? j =
            some s2 →
          s2.is_valid = s.is_valid ∧
          s2.next_packet_number = s.next_packet_number := by
        intro j s s2 hs hs2
        rw [List.get?_map] at hs2
        cases hz : (rc.replicas.zip data).get? j with
        | none => rw [hz] at hs2; cases hs2
        | some p =>
          obtain ⟨a, d⟩ := p
          rw [hz, Option.map_some'] at hs2
          cases hs2
          obtain ⟨h1, -⟩ := (List.get?_zip_eq_some _ _ _ _).1 hz
          rw [hs] at h1
          cases h1
          exact ⟨rfl, rfl⟩
      exact ⟨Inv_of_pointwise rc _ hinv rfl hlen
          (fun j s s2 h1 h2 => (hpt2 j s s2 h1 h2).1),
        Mono_of_pointwise rc _ hlen hpt2⟩
  · exact fun rc rc2 hinv hd => drainResidual_Inv_Mono rc rc2 hd hinv
  · exact fun fuel rc polls pkt rc2 polls2 hinv h =>
      (receivePacket_Inv_Mono fuel rc polls hinv).1 pkt rc2 polls2 h
  · exact fun fuel rc polls rc2 polls2 hinv h =>
      (receivePacket_Inv_Mono fuel rc polls hinv).2 rc2 polls2 h

/-- Closed instantiation of `invariants_preserved`: the count invariant holds
after a cancel broadcast on the one-replica coordinator. -/
theorem invariants_preserved_witness : Inv (sendCancel rcOneValid) :=
  (invariants_preserved.2.2.2.2.1 rcOneValid rfl).1

/-- One-replica coordinator with a single buffered data packet. -/
def rcC1 : ReplicasConnections :=
  mkReplicasConnections [freshConn "c0" [⟨.data, 3⟩]]

/-- The state after `rcC1` returns its data packet: both the replica's and
the coordinator's sequence counters are 1. -/
def rcC1out : ReplicasConnections :=
  { replicas := [{ conn := freshConn "c0" [], is_valid := true, can_read := true,
                   next_packet_number := 1 }]
    valid_replicas_count := 1, next_packet_number := 1 }

/-- C1: `receivePacket` returns a packet only through the single success
exit, where the returning replica's `next_packet_number` equals the
coordinator's: on a packet return the global cursor advances by exactly one
and the serving replica's counter equals it; a `NO_AVAILABLE_REPLICA` throw
leaves the cursor unchanged; hence over any run the cursor advances by
exactly the number of packets returned, and from construction (cursor 0) the
coordinator's `next_packet_number` always equals the total number of packets
returned to the caller so far — the returned packets form a single stream
ordered by the strictly increasing cursor. -/
theorem receivePacket_ordering :
    (∀ fuel rc polls pkt rc2 polls2,
      receivePacket fuel rc polls = .ok pkt rc2 polls2 →
      rc2.next_packet_number = rc.next_packet_number + 1 ∧
      ∃ i r2, rc2.replicas.get? i = some r2 ∧
        r2.next_packet_number = rc2.next_packet_number) ∧
    (∀ fuel rc polls rc2 polls2,
      receivePacket fuel rc polls = .noReplica rc2 polls2 →
      rc2.next_packet_number = rc.next_packet_number) ∧
    (∀ fuel n rc polls, (runCalls fuel n rc polls).1.next_packet_number =
      rc.next_packet_number + (runCalls fuel n rc polls).2) ∧
    (∀ conns fuel n polls,
      (runCalls fuel n (mkReplicasConnections conns) polls).1.next_packet_number =
      (runCalls fuel n (mkReplicasConnections conns) polls).2) := by
  refine ⟨?_, ?_, ?_, ?_⟩
  · exact fun fuel rc polls pkt rc2 polls2 h =>
      (receivePacket_next fuel rc polls).1 pkt rc2 polls2 h
  · exact fun fuel rc polls rc2 polls2 h =>
      (receivePacket_next fuel rc polls).2 rc2 polls2 h
  · exact fun fuel n rc polls => runCalls_next n fuel rc polls
  · intro conns fuel n polls
    have := runCalls_next n fuel (mkReplicasConnections conns) polls
    simpa [mkReplicasConnections] using this

/-- Closed instantiation of `receivePacket_ordering`: returning the one
buffered data packet of `rcC1` advances the coordinator cursor from 0 to 1
and leaves the serving replica's counter equal to it. -/
theorem receivePacket_ordering_witness :
    rcC1out.next_packet_number = rcC1.next_packet_number + 1 ∧
    ∃ i r2, rcC1out.replicas.get? i = some r2 ∧
      r2.next_packet_number = rcC1out.next_packet_number :=
  receivePacket_ordering.1 1 rcC1 [[true]] ⟨.data, 3⟩ rcC1out [] (by decide)

/-- A replica that has just received a packet (stream already empty). -/
def rC3a : Replica :=
  { conn := freshConn "b0" [], is_valid := true, can_read := true,
    next_packet_number := 0 }

/-- A second replica with two buffered packets awaiting the drain. -/
def rC3b : Replica :=
  { conn := freshConn "b1" [⟨.data, 1⟩, ⟨.endOfStream, 2⟩], is_valid := true,
    can_read := false, next_packet_number := 0 }

/-- Two-replica coordinator used by the classification witnesses. -/
def rcC3 : ReplicasConnections :=
  { replicas := [rC3a, rC3b], valid_replicas_count := 2, next_packet_number := 0 }

/-- The state after replica 0 of `rcC3` emits an `Exception` packet: replica
0 invalid, replica 1 cancelled and drained. -/
def rcC3term : ReplicasConnections :=
  { replicas := [
      { conn := freshConn "b0" [], is_valid := false, can_read := true,
        next_packet_number := 0 },
      { conn := { stream := [], address := "b1", cancel_count := 1,
                  disconnect_count := 0, query_count := 0, external_data := [] },
        is_valid := true, can_read := false, next_packet_number := 0 }]
    valid_replicas_count := 1, next_packet_number := 0 }

/-- Closed instantiation of `terminal_packet_spec`: an `Exception` packet
from replica 0 of `rcC3` decrements the valid count by one. -/
theorem terminal_packet_spec_witness :
    rcC3term.valid_replicas_count = rcC3.valid_replicas_count - 1 :=
  (terminal_packet_spec rcC3 0 rC3a ⟨.exception, 9⟩ [] false rcC3term false
    (by decide) (Or.inr rfl) (by decide)).2.1

/-- The state after replica 0 of `rcC3` emits an unrecognized packet:
replica 0 invalid, replica 1 completely untouched, retry raised. -/
def rcC3unrec : ReplicasConnections :=
  { replicas := [
      { conn := freshConn "b0" [], is_valid := false, can_read := true,
        next_packet_number := 0 },
      rC3b]
    valid_replicas_count := 1, next_packet_number := 0 }

/-- Closed instantiation of `unrecognized_packet_spec`: an unrecognized
packet from replica 0 of `rcC3` decrements the valid count, and the retry
flag is raised because replica 1 is still valid. -/
theorem unrecognized_packet_spec_witness :
    rcC3unrec.valid_replicas_count = rcC3.valid_replicas_count - 1 ∧
    (true = true ↔ (0 < rcC3unrec.valid_replicas_count ∨ false = true)) :=
  ⟨(unrecognized_packet_spec rcC3 0 rC3a ⟨.unrecognized, 5⟩ [] false rcC3unrec
      true (by decide) rfl (by decide)).1,
   (unrecognized_packet_spec rcC3 0 rC3a ⟨.unrecognized, 5⟩ [] false rcC3unrec
      true (by decide) rfl (by decide)).2.2.2.1⟩

/-! ## C9 / C10: the address dump -/

/-- Character-level content of the dump loop: one `'\0'` then the address,
for each valid replica in iteration order. -/
theorem dumpLoop_data (rs : List Replica) :
    (dumpLoop rs).data = ((rs.filter fun r => r.is_valid).map
      fun r => Char.ofNat 0 :: r.conn.address.data).flatten := by
  induction rs with
  | nil => rfl
  | cons r rest ih =>
    by_cases h : r.is_valid <;>
      simp [dumpLoop, h, String.data_append, String.data_singleton, ih,
        List.filter_cons]

/-- C10: for every coordinator state, `dumpAddresses` returns the empty
string when `valid_replicas_count` is 0 and otherwise, for each valid replica
in iteration order, a NUL character followed by that replica's server
address — the `'\0'`-initialised separator is streamed before every address. -/
theorem dumpAddresses_nul_concat (rc : ReplicasConnections) :
    dumpAddresses rc =
      if rc.valid_replicas_count = 0 then ""
      else String.join ((rc.replicas.filter fun r => r.is_valid).map
        fun r => String.singleton (Char.ofNat 0) ++ r.conn.address) := by
  unfold dumpAddresses
  by_cases h : rc.valid_replicas_count = 0
  · simp [h]
  · rw [if_neg h, if_neg h]
    apply String.ext
    rw [dumpLoop_data, String.data_join]
    simp [Function.comp_def, String.data_append, String.data_singleton]

/-- C9: the dump lists data of exactly the currently-valid replicas — every
valid replica's address occurs in the output (when the valid count is
nonzero), every output character is the NUL filler or a character of a valid
replica's address — and the intended `';'` separator is never emitted: a
`';'` occurs in the output only when some valid replica's own address
contains one. -/
theorem dumpAddresses_valid_only_no_separator (rc : ReplicasConnections) :
    ((';' ∈ (dumpAddresses rc).data) ↔
      (¬ rc.valid_replicas_count = 0 ∧
        ∃ r ∈ rc.replicas, r.is_valid = true ∧ ';' ∈ r.conn.address.data)) ∧
    (¬ rc.valid_replicas_count = 0 →
      ∀ r ∈ rc.replicas, r.is_valid = true →
        r.conn.address.data <:+: (dumpAddresses rc).data) ∧
    (∀ c ∈ (dumpAddresses rc).data,
      c = Char.ofNat 0 ∨ ∃ r ∈ rc.replicas, r.is_valid = true ∧
        c ∈ r.conn.address.data) := by
  unfold dumpAddresses
  by_cases h : rc.valid_replicas_count = 0
  · simp [h]
  · rw [if_neg h]
    refine ⟨?_, ?_, ?_⟩
    · rw [dumpLoop_data]
      simp only [List.mem_flatten, List.mem_map, List.mem_filter]
      constructor
      · rintro ⟨l, ⟨r, ⟨hmem, hval⟩, rfl⟩, hc⟩
        refine ⟨h, r, hmem, hval, ?_⟩
        cases hc with
        | tail _ h2 => exact h2
      · rintro ⟨-, r, hmem, hval, hc⟩
        exact ⟨_, ⟨r, ⟨hmem, hval⟩, rfl⟩, List.mem_cons_of_mem _ hc⟩
    · intro _ r hmem hval
      rw [dumpLoop_data]
      have hmem2 : Char.ofNat 0 :: r.conn.address.data ∈
          (rc.replicas.filter fun r => r.is_valid).map
            (fun r => Char.ofNat 0 :: r.conn.address.data) :=
        List.mem_map_of_mem _ (List.mem_filter.2 ⟨hmem, hval⟩)
      exact List.IsInfix.trans
        (List.suffix_cons (Char.ofNat 0) r.conn.address.data).isInfix
        (List.infix_of_mem_flatten hmem2)
    · intro c hc
      rw [dumpLoop_data] at hc
      rcases List.mem_flatten.1 hc with ⟨l, hl, hcl⟩
      rcases List.mem_map.1 hl with ⟨r, hr, rfl⟩
      rcases List.mem_filter.1 hr with ⟨hmem, hval⟩
      cases hcl with
      | head => exact Or.inl rfl
      | tail _ h2 => exact Or.inr ⟨r, hmem, hval, h2⟩

/-- Closed instantiation of `dumpAddresses_valid_only_no_separator` at the
one-replica coordinator: its address occurs in the dump output. -/
theorem dumpAddresses_valid_only_no_separator_witness :
    ("replica0".data <:+: (dumpAddresses rcOneValid).data) :=
  (dumpAddresses_valid_only_no_separator rcOneValid).2.1 (by decide)
    { conn := freshConn "replica0" [], is_valid := true, can_read := false,
      next_packet_number := 0 }
    (by decide) rfl

/-- Closed instantiation of `disconnect_valid_only` at the one-replica
coordinator. -/
theorem disconnect_valid_only_witness :
    (disconnect rcOneValid).replicas.get? 0 = some
      (if (({ conn := freshConn "replica0" [], is_valid := true, can_read := false,
              next_packet_number := 0 } : Replica)).is_valid then
        { ({ conn := freshConn "replica0" [], is_valid := true, can_read := false,
             next_packet_number := 0 } : Replica) with conn :=
            { (freshConn "replica0" []) with disconnect_count := 1 } }
       else { conn := freshConn "replica0" [], is_valid := true, can_read := false,
              next_packet_number := 0 }) :=
  (disconnect_valid_only rcOneValid).2.2.2 0 _ rfl

end ReplicasConn
